import Mathlib

/-! Rotation-aware log mirroring (`cmd/runmqserver/mirror.go`) and stanza parsing
(`pkg/mqini/mqini.go`)

A shallow embedding of the Go code.  Byte strings are lists of byte values
(`List Nat`); `10` is `'\n'`, `13` is `'\r'`, `61` is `'='`.

The first part models the pieces of the Go standard library the code is built on
(`bufio.Scanner` with the default split function `bufio.ScanLines`).
-/

namespace Mirror

/-! ## `bufio.Scanner` with `bufio.ScanLines` -/

/-- Go's `bufio.MaxScanTokenSize`: the largest buffer a default `Scanner` allocates. -/
def MaxScanTokenSize : Nat := 64 * 1024

/-- Go's `dropCR`: drop one terminal `'\r'` from the data. -/
def dropCR (data : List Nat) : List Nat :=
  if data.getLast? = some 13 then data.dropLast else data

/-- Go's `bufio.ScanLines` split function.  Returns the number of bytes to advance and the
token, if one is available:
* at EOF with no data: no token;
* a newline at index `i`: advance `i + 1`, token `dropCR data[0:i]`;
* at EOF: the final, non-terminated line is returned as a token;
* otherwise: request more data. -/
def ScanLines (data : List Nat) (atEOF : Bool) : Nat × Option (List Nat) :=
  if atEOF && data.isEmpty then (0, none)
  else if data.contains 10 then
    (data.indexOf 10 + 1, some (dropCR (data.take (data.indexOf 10))))
  else if atEOF then (data.length, some (dropCR data))
  else (0, none)

/-- What a `for scanner.Scan() \x7b ... \x7d` loop yields. -/
structure ScanOut where
  /-- the successive values of `scanner.Text()` -/
  tokens : List (List Nat)
  /-- number of bytes the scanner has taken from the reader -/
  read : Nat
  /-- whether `scanner.Err()` is `ErrTooLong` -/
  tooLong : Bool
deriving DecidableEq, Repr

/-- The loop `for scanner.Scan()` of a fresh `bufio.NewScanner` over a reader that holds
`data` and then reports EOF.  The scanner's buffer holds at most `maxTok` bytes of not yet
tokenised input, so the split function sees `data.take maxTok`, and sees EOF only when all
of `data` fits with room to spare (a full buffer without a token is `ErrTooLong`, at which
point `maxTok` further bytes have been read).  The first argument bounds the number of
iterations; `data.length + 1` is enough, as every token advances by at least one byte. -/
def scanLoop (maxTok : Nat) : Nat → List Nat → ScanOut
  | 0, _ => ⟨[], 0, false⟩
  | fuel + 1, data =>
    let atEOF := decide (data.length < maxTok)
    match ScanLines (data.take maxTok) atEOF with
    | (adv, some tok) =>
      let r := scanLoop maxTok fuel (data.drop adv)
      ⟨tok :: r.tokens, adv + r.read, r.tooLong⟩
    | (_, none) => if atEOF then ⟨[], 0, false⟩ else ⟨[], maxTok, true⟩

/-- A default scanner run to completion over `data`. -/
def scanAll (data : List Nat) : ScanOut :=
  scanLoop MaxScanTokenSize (data.length + 1) data

/-! ## `mirrorAvailableMessages` -/

/-- The consumer callback type `mirrorFunc`. -/
abbrev mirrorFunc := List Nat → Bool → Bool

/-- Observable effect of one call of `mirrorAvailableMessages`. -/
structure MirrorOut where
  /-- the calls `mf(t, isQMLog)` made, in order -/
  calls : List (List Nat × Bool)
  /-- the local `count`: calls for which `mf` returned true -/
  count : Nat
  /-- bytes taken from the file handle (its position advances by this much) -/
  read : Nat
  /-- whether `scanner.Err()` was non-nil (logged, nothing else) -/
  failed : Bool
deriving DecidableEq, Repr

/-- The function `mirrorAvailableMessages(f, mf, isQMLog)`; `avail` is the content of the
file from the position of the handle `f` to the end of the file. -/
def mirrorAvailableMessages (avail : List Nat) (mf : mirrorFunc) (isQMLog : Bool) :
    MirrorOut :=
  let s := scanAll avail
  { calls := s.tokens.map (fun t => (t, isQMLog))
    count := (s.tokens.filter (fun t => mf t isQMLog)).length
    read := s.read
    failed := s.tooLong }

/-- The content made of the given lines, each followed by a newline. -/
def joinLines : List (List Nat) → List Nat
  | [] => []
  | l :: ls => l ++ 10 :: joinLines ls

/-- Lines of a content as the claim describes them: every complete newline-terminated
line with the terminator removed; what follows the last newline is not a line.  The first
argument accumulates the current line in reverse. -/
def completeLinesAux : List Nat → List Nat → List (List Nat)
  | _, [] => []
  | cur, b :: rest =>
    if b = 10 then cur.reverse :: completeLinesAux [] rest
    else completeLinesAux (b :: cur) rest

/-- Complete newline-terminated lines of a content, terminators removed. -/
def completeLines (data : List Nat) : List (List Nat) := completeLinesAux [] data


/-! ## `pkg/mqini`: `getQueueManagerFromStanza`

Strings are byte strings.  `strings.TrimSpace` removes leading and trailing white space
as defined by Unicode (`unicode.IsSpace`), decoding UTF-8; `strings.Split(l, "=")` cuts at
every byte `61`. -/

/-- Go's `asciiSpace` table of package `strings`: `'\t'`, `'\n'`, `'\v'`, `'\f'`, `'\r'`,
`' '`. -/
def asciiSpace (b : Nat) : Bool :=
  b == 9 || b == 10 || b == 11 || b == 12 || b == 13 || b == 32

/-- Whether the bytes are the UTF-8 encoding of one character for which `unicode.IsSpace`
holds: the ASCII spaces, U+0085, U+00A0, U+1680, U+2000 to U+200A, U+2028, U+2029, U+202F,
U+205F, U+3000. -/
def isSpaceRune (enc : List Nat) : Bool :=
  match enc with
  | [b] => asciiSpace b
  | [b1, b2] => b1 == 0xC2 && (b2 == 0x85 || b2 == 0xA0)
  | [b1, b2, b3] =>
    (b1 == 0xE1 && b2 == 0x9A && b3 == 0x80)
    || (b1 == 0xE2 && b2 == 0x80 &&
          ((0x80 ≤ b3 && b3 ≤ 0x8A) || b3 == 0xA8 || b3 == 0xA9 || b3 == 0xAF))
    || (b1 == 0xE2 && b2 == 0x81 && b3 == 0x9F)
    || (b1 == 0xE3 && b2 == 0x80 && b3 == 0x80)
  | _ => false

/-- Go's `strings.TrimLeftFunc(s, unicode.IsSpace)`; the first argument bounds the number
of characters removed (`s.length` is enough). -/
def trimLeftSpace : Nat → List Nat → List Nat
  | 0, s => s
  | n + 1, s =>
    if isSpaceRune (s.take 1) then trimLeftSpace n (s.drop 1)
    else if isSpaceRune (s.take 2) then trimLeftSpace n (s.drop 2)
    else if isSpaceRune (s.take 3) then trimLeftSpace n (s.drop 3)
    else s

/-- Go's `strings.TrimRightFunc(s, unicode.IsSpace)`, on the reversed string `r`: the last
character of the string is encoded by the first bytes of `r`, in reverse. -/
def trimRightSpaceRev : Nat → List Nat → List Nat
  | 0, r => r
  | n + 1, r =>
    if isSpaceRune (r.take 1).reverse then trimRightSpaceRev n (r.drop 1)
    else if isSpaceRune (r.take 2).reverse then trimRightSpaceRev n (r.drop 2)
    else if isSpaceRune (r.take 3).reverse then trimRightSpaceRev n (r.drop 3)
    else r

/-- Go's `strings.TrimSpace`. -/
def TrimSpace (s : List Nat) : List Nat :=
  (trimRightSpaceRev s.length (trimLeftSpace s.length s).reverse).reverse

/-- Go's `strings.Split(s, sep)` for a separator of one byte; the first argument
accumulates the current piece in reverse. -/
def splitAux (sep : Nat) : List Nat → List Nat → List (List Nat)
  | cur, [] => [cur.reverse]
  | cur, b :: rest =>
    if b = sep then cur.reverse :: splitAux sep [] rest
    else splitAux sep (b :: cur) rest

/-- Go's `strings.Split(s, "=")`. -/
def Split (s : List Nat) : List (List Nat) := splitAux 61 [] s

/-- The struct `QueueManager`. -/
structure QueueManager where
  Name : List Nat := []
  Prefix : List Nat := []
  Directory : List Nat := []
  DataPath : List Nat := []
  InstallationName : List Nat := []
deriving DecidableEq, Repr

/-- A run-time panic of the Go program. -/
inductive Panic
  /-- The panic `index out of range [index] with length length` -/
  | indexOutOfRange (index length : Nat)
deriving DecidableEq, Repr

/-- The slice access `t[i]`. -/
def index (t : List (List Nat)) (i : Nat) : Except Panic (List Nat) :=
  match t.get? i with
  | some x => .ok x
  | none => .error (.indexOutOfRange i t.length)

/-- The string `"Name"`. -/
def keyName : List Nat := [78, 97, 109, 101]
/-- The string `"Prefix"`. -/
def keyPrefix : List Nat := [80, 114, 101, 102, 105, 120]
/-- The string `"Directory"`. -/
def keyDirectory : List Nat := [68, 105, 114, 101, 99, 116, 111, 114, 121]
/-- The string `"DataPath"`. -/
def keyDataPath : List Nat := [68, 97, 116, 97, 80, 97, 116, 104]
/-- The string `"InstallationName"`. -/
def keyInstallationName : List Nat :=
  [73, 110, 115, 116, 97, 108, 108, 97, 116, 105, 111, 110, 78, 97, 109, 101]

/-- The body of the loop `for scanner.Scan()` of `getQueueManagerFromStanza`, for the line
`text`. -/
def stanzaLine (qm : QueueManager) (text : List Nat) : Except Panic QueueManager := do
  let l := TrimSpace text
  let t := Split l
  let k ← index t 0
  if k = keyName then
    let v ← index t 1
    pure { qm with Name := v }
  else if k = keyPrefix then
    let v ← index t 1
    pure { qm with Prefix := v }
  else if k = keyDirectory then
    let v ← index t 1
    pure { qm with Directory := v }
  else if k = keyDataPath then
    let v ← index t 1
    pure { qm with DataPath := v }
  else if k = keyInstallationName then
    let v ← index t 1
    pure { qm with InstallationName := v }
  else
    pure qm

/-- The loop over the lines of the stanza. -/
def stanzaLines : QueueManager → List (List Nat) → Except Panic QueueManager
  | qm, [] => .ok qm
  | qm, text :: rest =>
    match stanzaLine qm text with
    | .ok qm' => stanzaLines qm' rest
    | .error p => .error p

/-- The function `getQueueManagerFromStanza`.  The result is the queue manager together
with whether `scanner.Err()` is non-nil, or the panic that ended the call. -/
def getQueueManagerFromStanza (stanza : List Nat) : Except Panic (QueueManager × Bool) :=
  match stanzaLines {} (scanAll stanza).tokens with
  | .ok qm => .ok (qm, (scanAll stanza).tooLong)
  | .error p => .error p

/-! ## The world around a `mirrorLog` session

The session shares the file system and the context with the rest of the system.  Files
are told apart by their identity (what `os.SameFile` compares); the path names at most one
of them at a time.  A rotation renames the file away and creates a fresh one. -/

/-- Identity of a file (device and inode). -/
abbrev FileId := Nat

/-- The file system around the path, and the context. -/
structure World where
  /-- content of every file created so far, indexed by identity -/
  files : List (List Nat)
  /-- the file the path names, if any -/
  path : Option FileId
  /-- whether `ctx.Done()` is closed -/
  cancelled : Bool
deriving DecidableEq, Repr

/-- What the rest of the system does to the path and to the context. -/
inductive EnvAct
  /-- append bytes to the file the path names -/
  | write (bytes : List Nat)
  /-- rename the file away: the path names nothing -/
  | rename
  /-- create a new, empty file at the path -/
  | create
  /-- cancel the context -/
  | cancel
deriving DecidableEq, Repr

/-- Content of the file with identity `id`. -/
def World.content (w : World) (id : FileId) : List Nat := w.files.getD id []

/-- Effect of one action of the environment. -/
def World.apply (w : World) : EnvAct → World
  | .write bytes =>
    match w.path with
    | some id => { w with files := w.files.set id (w.content id ++ bytes) }
    | none => w
  | .rename => { w with path := none }
  | .create =>
    match w.path with
    | some _ => w
    | none => { w with files := w.files ++ [[]], path := some w.files.length }
  | .cancel => { w with cancelled := true }

/-- Effect of a sequence of actions of the environment. -/
def World.applyAll (w : World) (acts : List EnvAct) : World := acts.foldl World.apply w

/-- An `os.FileInfo`: identity and size. -/
structure FileInfo where
  file : FileId
  size : Nat
deriving DecidableEq, Repr

/-- An open `*os.File`: the file it reads and the position of the next read. -/
structure Handle where
  file : FileId
  pos : Nat
deriving DecidableEq, Repr

/-- The error values the session can meet. -/
inductive Err
  /-- an error for which `os.IsNotExist` holds -/
  | notExist
  /-- any other error of `os.Stat(path)` -/
  | stat
  /-- the error `fmt.Errorf("mirror: unable to get info on file %v", path)` -/
  | unableToGetInfo
  /-- any other error of `os.OpenFile` -/
  | openFailed
  /-- an error of `f.Stat()` -/
  | handleStat
deriving DecidableEq, Repr

/-- The `os.FileInfo` of the file with identity `id`. -/
def World.info (w : World) (id : FileId) : FileInfo := ⟨id, (w.content id).length⟩

/-- The call `os.Stat(path)`; `fault` makes it fail with an error other than "not exist". -/
def osStat (w : World) (fault : Bool) : Option FileInfo × Option Err :=
  if fault then (none, some .stat)
  else
    match w.path with
    | none => (none, some .notExist)
    | some id => (some (w.info id), none)

/-- The call `os.OpenFile(path, os.O_RDONLY, 0)`. -/
def osOpenFile (w : World) (fault : Bool) : Option Handle × Option Err :=
  if fault then (none, some .openFailed)
  else
    match w.path with
    | none => (none, some .notExist)
    | some id => (some ⟨id, 0⟩, none)

/-- The call `os.SameFile(fi1, fi2)`. -/
def SameFile : Option FileInfo → Option FileInfo → Bool
  | some a, some b => a.file == b.file
  | _, _ => false

/-! ## `waitForFile` and `mirrorLog` as a machine

Every system call, every look at the context and every sleep is one step; the environment
may act between any two steps. -/

/-- The two calls of `waitForFile`: before the file is first opened, and in the loop. -/
inductive Site
  | first
  | loop
deriving DecidableEq, Repr

/-- How the goroutine returned. -/
inductive Exit
  /-- the `return` after "Shutting down mirror" -/
  | shutdown
  /-- a `return` that follows `errorChannel <- err` -/
  | failed
  /-- the `return` of `if fi == nil` -/
  | noFile
deriving DecidableEq, Repr

/-- Control points of `mirrorLog`, its goroutine, and `waitForFile`. -/
inductive PC
  /-- The statement `fi, err = os.Stat(path)` of `mirrorLog` -/
  | statPath
  /-- The statement `f, err = os.OpenFile(...)` of `mirrorLog`, before it returns -/
  | openFirst
  /-- After `mirrorLog` returned `nil, err`; no goroutine -/
  | setupFailed
  /-- In `waitForFile`: the `select` on `ctx.Done()` -/
  | waitCheck (s : Site)
  /-- In `waitForFile`: `fi, err = os.Stat(path)` of the `default` case -/
  | waitStat (s : Site)
  /-- In `waitForFile`: `return os.Stat(path)` of the case `<-ctx.Done()` -/
  | waitCancelStat (s : Site)
  /-- In `waitForFile`: `time.Sleep` -/
  | waitSleep (s : Site)
  /-- The statement `f, err = os.OpenFile(...)` after the first `waitForFile` -/
  | openWaited
  /-- The statement `fi, err = f.Stat()` -/
  | statHandle
  /-- The statement `_, err = f.Seek(offset, 0)` -/
  | seek
  /-- The call of `mirrorAvailableMessages` at the head of the loop -/
  | drain
  /-- The call of `mirrorAvailableMessages` on the old file, after a rotation is detected -/
  | drainOld
  /-- The statement `err = f.Close()` -/
  | closeOld
  /-- The statement `f, err = os.OpenFile(...)` after a rotation -/
  | reopen
  /-- The call of `mirrorAvailableMessages` on the new file -/
  | drainNew
  /-- the `select` on `ctx.Done()` at the end of the loop -/
  | checkCancel
  /-- The statement `time.Sleep` at the end of the loop -/
  | sleep
  /-- the goroutine is blocked in `errorChannel <- err` on a full channel -/
  | blocked
  /-- the goroutine returned, and the deferred `wg.Done()` has run -/
  | done (e : Exit)
deriving DecidableEq, Repr

/-- Arguments of `mirrorLog` other than `ctx`, `wg` and `path`. -/
structure Params where
  fromStart : Bool
  mf : mirrorFunc
  isQMLog : Bool

/-- Capacity of `errorChannel`: `make(chan error, 1)`. -/
def errorChannelCap : Nat := 1

/-- State of a session: the variables of `mirrorLog`, its effects so far, and bookkeeping
used to state properties. -/
structure Cfg where
  pc : PC
  /-- The variable `var offset int64 = -1` -/
  offset : Int
  /-- The variable `var f *os.File` -/
  f : Option Handle
  /-- The variable `var err error` -/
  err : Option Err
  /-- The variable `var fi os.FileInfo` -/
  fi : Option FileInfo
  /-- The variable `newFI` of the loop -/
  newFI : Option FileInfo
  /-- The variable `closing`, declared `false` before the loop -/
  closing : Bool
  /-- what `mirrorLog` returned as immediate error, once it has returned -/
  ret : Option (Option Err)
  /-- values sent on `errorChannel` and not received (nobody receives) -/
  errorChannel : List Err
  /-- number of calls `wg.Add(1)` -/
  wgAdds : Nat
  /-- number of calls `wg.Done()` -/
  wgDones : Nat
  /-- number of files opened -/
  opens : Nat
  /-- number of files closed -/
  closes : Nat
  /-- the calls of the consumer `mf`, in order -/
  dispatched : List (List Nat × Bool)
  /-- bookkeeping: number of calls of `mirrorAvailableMessages` -/
  drains : Nat
  /-- bookkeeping: whether "Unable to return to offset" was logged -/
  seekFailed : Bool
  /-- bookkeeping: the control points passed since `closing` was set -/
  sinceClosing : List PC
deriving DecidableEq, Repr

/-- State at the call of `mirrorLog`. -/
def Cfg.init : Cfg :=
  { pc := .statPath, offset := -1, f := none, err := none, fi := none, newFI := none,
    closing := false, ret := none, errorChannel := [], wgAdds := 0, wgDones := 0,
    opens := 0, closes := 0, dispatched := [], drains := 0, seekFailed := false,
    sinceClosing := [] }

/-- A `return` of the goroutine: the deferred function calls `wg.Done()`. -/
def Cfg.finish (c : Cfg) (e : Exit) : Cfg :=
  { c with pc := .done e, wgDones := c.wgDones + 1 }

/-- The statements `errorChannel <- err; return`: the send goes through when the channel
has room, and the goroutine returns; on a full channel the goroutine blocks. -/
def Cfg.send (c : Cfg) (e : Err) : Cfg :=
  { c with
    errorChannel :=
      if c.errorChannel.length < errorChannelCap then c.errorChannel ++ [e]
      else c.errorChannel
    wgDones := if c.errorChannel.length < errorChannelCap then c.wgDones + 1 else c.wgDones
    pc := if c.errorChannel.length < errorChannelCap then .done .failed else .blocked }

/-- The statements `wg.Add(1); go func() ...; return errorChannel, nil`, and the test
`if f == nil` at the head of the goroutine. -/
def Cfg.launch (c : Cfg) : Cfg :=
  { c with
    ret := some none
    wgAdds := c.wgAdds + 1
    pc := if c.f.isNone then .waitCheck .first else .statHandle }

/-- What a call `mirrorAvailableMessages(f, mf, isQMLog)` does on the handle `h`.  With
`fault` the first read fails: nothing is dispatched, and `scanner.Err()` is logged.
Otherwise the scanner reads from the position of the handle to the end of the file. -/
def mirrorOut (P : Params) (w : World) (fault : Bool) (h : Handle) : MirrorOut :=
  if fault then ⟨[], 0, 0, true⟩
  else mirrorAvailableMessages ((w.content h.file).drop h.pos) P.mf P.isQMLog

/-- The call `mirrorAvailableMessages(f, mf, isQMLog)`: the consumer is called, and the
position of the handle advances by what the scanner read. -/
def Cfg.mirror (P : Params) (w : World) (fault : Bool) (c : Cfg) : Cfg :=
  match c.f with
  | none => { c with drains := c.drains + 1 }
  | some h =>
    { c with
      f := some { h with pos := h.pos + (mirrorOut P w fault h).read }
      dispatched := c.dispatched ++ (mirrorOut P w fault h).calls
      drains := c.drains + 1 }

/-- What the caller of `waitForFile` does with the result `(fi, err)`: at the first call
`if err != nil \x7b errorChannel <- err; return \x7d; if fi == nil \x7b return \x7d`, in the loop
`if err != nil \x7b errorChannel <- err; return \x7d; if !os.SameFile(fi, newFI) ...`. -/
def Cfg.afterWait (c : Cfg) : Site → Option FileInfo × Option Err → Cfg
  | .first, (fi, some e) => { c with fi := fi, err := some e }.send e
  | .first, (none, none) => { c with fi := none, err := none }.finish .noFile
  | .first, (some i, none) => { c with fi := some i, err := none, pc := .openWaited }
  | .loop, (newFI, some e) => { c with newFI := newFI, err := some e }.send e
  | .loop, (newFI, none) =>
    { c with
      newFI := newFI
      err := none
      pc := if SameFile c.fi newFI then .checkCancel else .drainOld }

/-- Bookkeeping: note the control point about to run, once `closing` is set. -/
def Cfg.note (c : Cfg) : Cfg :=
  { c with sinceClosing := if c.closing then c.sinceClosing ++ [c.pc] else c.sinceClosing }

/-- One step of the session in the world `w`.  `fault` tells whether the system call of
this step fails for a reason of its own (for `os.Stat(path)`: other than "not exist"). -/
def step (P : Params) (w : World) (fault : Bool) (c : Cfg) : Cfg :=
  match c.pc with
  | .setupFailed => c
  | .blocked => c
  | .done _ => c
  | .statPath =>
    match osStat w fault with
    | (fi, some .notExist) => { c with fi := fi, err := some .notExist, offset := 0 }.launch
    | (fi, some e) =>
      { c with fi := fi, err := some e, pc := .setupFailed, ret := some (some e) }
    | (fi, none) => { c with fi := fi, err := none, pc := .openFirst }
  | .openFirst =>
    match osOpenFile w fault with
    | (f, some e) => { c with f := f, err := some e, pc := .setupFailed, ret := some (some e) }
    | (f, none) =>
      { c with
        f := f
        err := none
        opens := c.opens + 1
        offset := match c.fi with
          | some i => (i.size : Int)
          | none => c.offset }.launch
  | .waitCheck s =>
    { c.note with pc := if w.cancelled then .waitCancelStat s else .waitStat s }
  | .waitCancelStat s => c.note.afterWait s (osStat w fault)
  | .waitStat s =>
    match osStat w fault with
    | (_, some .notExist) => { c.note with pc := .waitSleep s }
    | (_, some _) => c.note.afterWait s (none, some .unableToGetInfo)
    | (fi, none) => c.note.afterWait s (fi, none)
  | .waitSleep s => { c.note with pc := .waitCheck s }
  | .openWaited =>
    match osOpenFile w fault with
    | (f, some e) => { c with f := f, err := some e }.send e
    | (f, none) => { c with f := f, err := none, opens := c.opens + 1, pc := .statHandle }
  | .statHandle =>
    if fault then { c with fi := none, err := some .handleStat }.send .handleStat
    else
      { c with
        fi := c.f.map (fun (h : Handle) => w.info h.file)
        err := none
        pc := if c.offset ≠ (0 : Int) ∧ P.fromStart = false then .seek else .drain }
  | .seek =>
    { c with
      f := if fault then c.f
        else c.f.map (fun (h : Handle) => { h with pos := c.offset.toNat })
      seekFailed := fault
      pc := .drain }
  | .drain => { (c.note.mirror P w fault) with pc := .waitCheck .loop }
  | .drainOld => { (c.note.mirror P w fault) with pc := .closeOld }
  | .closeOld => { c.note with closes := c.closes + 1, pc := .reopen }
  | .reopen =>
    match osOpenFile w fault with
    | (f, some e) => { c.note with f := f, err := some e }.send e
    | (f, none) =>
      { c.note with f := f, err := none, opens := c.opens + 1, fi := c.newFI, pc := .drainNew }
  | .drainNew => { (c.note.mirror P w fault) with pc := .checkCancel }
  | .checkCancel =>
    if w.cancelled then
      if c.closing then c.note.finish .shutdown
      else { c with closing := true, sinceClosing := [], pc := .drain }
    else { c.note with pc := .sleep }
  | .sleep => { c.note with pc := .drain }

/-- One tick of a run: what the environment does, then one step of the session. -/
structure Tick where
  acts : List EnvAct
  fault : Bool
deriving DecidableEq, Repr

/-- A tick in which the environment does nothing and no system call fails. -/
def Tick.quiet : Tick := ⟨[], false⟩

/-- The session run along a schedule: the world and the session at the end. -/
def run (P : Params) : World → Cfg → List Tick → World × Cfg
  | w, c, [] => (w, c)
  | w, c, t :: ts => run P (w.applyAll t.acts) (step P (w.applyAll t.acts) t.fault c) ts

/-- The state of the session after `mirrorLog` is called in the world `w` and the
schedule has run. -/
def session (P : Params) (w : World) (ticks : List Tick) : Cfg :=
  (run P w Cfg.init ticks).2

/-- The world after the schedule. -/
def worldAfter (w : World) (ticks : List Tick) : World :=
  ticks.foldl (fun w t => w.applyAll t.acts) w

/-! ## The steps as a relation

`Step P w fault c c'` lists the transitions of `step`, one constructor for each branch of
the code, so that properties of all runs can be proved by cases (`step_sound` below shows
that every step of the machine is one of them). -/

/-- The transitions of the session in the world `w`. -/
inductive Step (P : Params) (w : World) (fault : Bool) (c : Cfg) : Cfg → Prop
  | stopped : (c.pc = .setupFailed ∨ c.pc = .blocked ∨ ∃ e, c.pc = .done e) → Step P w fault c c
  | statPathFault : c.pc = .statPath → fault = true →
      Step P w fault c
        { c with fi := none, err := some .stat, pc := .setupFailed, ret := some (some .stat) }
  | statPathNone : c.pc = .statPath → fault = false → w.path = none →
      Step P w fault c { c with fi := none, err := some .notExist, offset := 0 }.launch
  | statPathSome (id : FileId) : c.pc = .statPath → fault = false → w.path = some id →
      Step P w fault c { c with fi := some (w.info id), err := none, pc := .openFirst }
  | openFirstFault : c.pc = .openFirst → fault = true →
      Step P w fault c
        { c with f := none, err := some .openFailed, pc := .setupFailed, ret := some (some .openFailed) }
  | openFirstNone : c.pc = .openFirst → fault = false → w.path = none →
      Step P w fault c
        { c with
          f := none, err := some .notExist, pc := .setupFailed
          ret := some (some .notExist) }
  | openFirstSome (id : FileId) : c.pc = .openFirst → fault = false → w.path = some id →
      Step P w fault c
        { c with
          f := some ⟨id, 0⟩
          err := none
          opens := c.opens + 1
          offset := match c.fi with
            | some i => (i.size : Int)
            | none => c.offset }.launch
  | waitCheckCancelled (s : Site) : c.pc = .waitCheck s → w.cancelled = true →
      Step P w fault c { c.note with pc := .waitCancelStat s }
  | waitCheckLive (s : Site) : c.pc = .waitCheck s → w.cancelled = false →
      Step P w fault c { c.note with pc := .waitStat s }
  | waitCancelStatFirstFault : c.pc = .waitCancelStat .first → fault = true →
      Step P w fault c ({ c.note with fi := none, err := some .stat }.send .stat)
  | waitCancelStatFirstNone : c.pc = .waitCancelStat .first → fault = false →
      w.path = none →
      Step P w fault c ({ c.note with fi := none, err := some .notExist }.send .notExist)
  | waitCancelStatFirstSome (id : FileId) : c.pc = .waitCancelStat .first → fault = false →
      w.path = some id →
      Step P w fault c { c.note with fi := some (w.info id), err := none, pc := .openWaited }
  | waitCancelStatLoopFault : c.pc = .waitCancelStat .loop → fault = true →
      Step P w fault c ({ c.note with newFI := none, err := some .stat }.send .stat)
  | waitCancelStatLoopNone : c.pc = .waitCancelStat .loop → fault = false → w.path = none →
      Step P w fault c ({ c.note with newFI := none, err := some .notExist }.send .notExist)
  | waitCancelStatLoopSame (id : FileId) : c.pc = .waitCancelStat .loop → fault = false →
      w.path = some id → SameFile c.fi (some (w.info id)) = true →
      Step P w fault c
        { c.note with newFI := some (w.info id), err := none, pc := .checkCancel }
  | waitCancelStatLoopRotated (id : FileId) : c.pc = .waitCancelStat .loop →
      fault = false → w.path = some id → SameFile c.fi (some (w.info id)) = false →
      Step P w fault c { c.note with newFI := some (w.info id), err := none, pc := .drainOld }
  | waitStatFirstFault : c.pc = .waitStat .first → fault = true →
      Step P w fault c
        ({ c.note with fi := none, err := some .unableToGetInfo }.send .unableToGetInfo)
  | waitStatLoopFault : c.pc = .waitStat .loop → fault = true →
      Step P w fault c
        ({ c.note with newFI := none, err := some .unableToGetInfo }.send .unableToGetInfo)
  | waitStatNone (s : Site) : c.pc = .waitStat s → fault = false → w.path = none →
      Step P w fault c { c.note with pc := .waitSleep s }
  | waitStatFirstSome (id : FileId) : c.pc = .waitStat .first → fault = false →
      w.path = some id →
      Step P w fault c { c.note with fi := some (w.info id), err := none, pc := .openWaited }
  | waitStatLoopSame (id : FileId) : c.pc = .waitStat .loop → fault = false →
      w.path = some id → SameFile c.fi (some (w.info id)) = true →
      Step P w fault c
        { c.note with newFI := some (w.info id), err := none, pc := .checkCancel }
  | waitStatLoopRotated (id : FileId) : c.pc = .waitStat .loop → fault = false →
      w.path = some id → SameFile c.fi (some (w.info id)) = false →
      Step P w fault c { c.note with newFI := some (w.info id), err := none, pc := .drainOld }
  | waitSleep (s : Site) : c.pc = .waitSleep s →
      Step P w fault c { c.note with pc := .waitCheck s }
  | openWaitedFault : c.pc = .openWaited → fault = true →
      Step P w fault c ({ c with f := none, err := some .openFailed }.send .openFailed)
  | openWaitedNone : c.pc = .openWaited → fault = false → w.path = none →
      Step P w fault c ({ c with f := none, err := some .notExist }.send .notExist)
  | openWaitedSome (id : FileId) : c.pc = .openWaited → fault = false → w.path = some id →
      Step P w fault c
        { c with f := some ⟨id, 0⟩, err := none, opens := c.opens + 1, pc := .statHandle }
  | statHandleFault : c.pc = .statHandle → fault = true →
      Step P w fault c ({ c with fi := none, err := some .handleStat }.send .handleStat)
  | statHandleSeek : c.pc = .statHandle → fault = false →
      (c.offset ≠ 0 ∧ P.fromStart = false) →
      Step P w fault c
        { c with fi := c.f.map (fun (h : Handle) => w.info h.file), err := none, pc := .seek }
  | statHandleDrain : c.pc = .statHandle → fault = false →
      ¬ (c.offset ≠ 0 ∧ P.fromStart = false) →
      Step P w fault c
        { c with fi := c.f.map (fun (h : Handle) => w.info h.file), err := none, pc := .drain }
  | seekFault : c.pc = .seek → fault = true →
      Step P w fault c { c with seekFailed := true, pc := .drain }
  | seekDone : c.pc = .seek → fault = false →
      Step P w fault c
        { c with
          f := c.f.map (fun (h : Handle) => { h with pos := c.offset.toNat })
          seekFailed := false
          pc := .drain }
  | drain : c.pc = .drain →
      Step P w fault c { (c.note.mirror P w fault) with pc := .waitCheck .loop }
  | drainOld : c.pc = .drainOld →
      Step P w fault c { (c.note.mirror P w fault) with pc := .closeOld }
  | closeOld : c.pc = .closeOld →
      Step P w fault c { c.note with closes := c.closes + 1, pc := .reopen }
  | reopenFault : c.pc = .reopen → fault = true →
      Step P w fault c ({ c.note with f := none, err := some .openFailed }.send .openFailed)
  | reopenNone : c.pc = .reopen → fault = false → w.path = none →
      Step P w fault c ({ c.note with f := none, err := some .notExist }.send .notExist)
  | reopenSome (id : FileId) : c.pc = .reopen → fault = false → w.path = some id →
      Step P w fault c
        { c.note with
          f := some ⟨id, 0⟩, err := none, opens := c.opens + 1, fi := c.newFI
          pc := .drainNew }
  | drainNew : c.pc = .drainNew →
      Step P w fault c { (c.note.mirror P w fault) with pc := .checkCancel }
  | checkCancelShutdown : c.pc = .checkCancel → w.cancelled = true → c.closing = true →
      Step P w fault c (c.note.finish .shutdown)
  | checkCancelClosing : c.pc = .checkCancel → w.cancelled = true → c.closing = false →
      Step P w fault c { c with closing := true, sinceClosing := [], pc := .drain }
  | checkCancelLive : c.pc = .checkCancel → w.cancelled = false →
      Step P w fault c { c.note with pc := .sleep }
  | sleep : c.pc = .sleep → Step P w fault c { c.note with pc := .drain }

/-! ## Invariants used in the proofs -/

/-- Relation between the control point, the value returned by `mirrorLog` and the calls
made on the wait group. -/
def WgInv (c : Cfg) : Prop :=
  match c.pc with
  | .statPath => c.ret = none ∧ c.wgAdds = 0 ∧ c.wgDones = 0
  | .openFirst => c.ret = none ∧ c.wgAdds = 0 ∧ c.wgDones = 0
  | .setupFailed => (∃ e, c.ret = some (some e)) ∧ c.wgAdds = 0 ∧ c.wgDones = 0
  | .done _ => c.ret = some none ∧ c.wgAdds = 1 ∧ c.wgDones = 1
  | _ => c.ret = some none ∧ c.wgAdds = 1 ∧ c.wgDones = 0

/-- Relation between the control point and the content of `errorChannel`: the channel
holds a value only once the goroutine has returned after a send, and the value is the
non-nil `err` that was sent. -/
def ChanInv (c : Cfg) : Prop :=
  match c.pc with
  | .done .failed => ∃ e, c.errorChannel = [e] ∧ c.err = some e
  | .blocked => False
  | _ => c.errorChannel = []

/-- The control points of a last pass through the loop in which no rotation is seen. -/
def finalPass : List PC :=
  [.drain, .waitCheck .loop, .waitCancelStat .loop, .checkCancel]

/-- The control points of a last pass through the loop in which a rotation is seen. -/
def finalPassRotated : List PC :=
  [.drain, .waitCheck .loop, .waitCancelStat .loop, .drainOld, .closeOld, .reopen, .drainNew,
    .checkCancel]

/-- Once `closing` is set the context is cancelled, and the control points passed since
then are the beginning of one pass through the loop, up to the current control point. -/
def ClosingInv (w : World) (c : Cfg) : Prop :=
  if c.closing = true then
    w.cancelled = true ∧
    match c.pc with
    | .drain => c.sinceClosing = []
    | .waitCheck .loop => c.sinceClosing = finalPass.take 1
    | .waitCancelStat .loop => c.sinceClosing = finalPass.take 2
    | .drainOld => c.sinceClosing = finalPassRotated.take 3
    | .closeOld => c.sinceClosing = finalPassRotated.take 4
    | .reopen => c.sinceClosing = finalPassRotated.take 5
    | .drainNew => c.sinceClosing = finalPassRotated.take 6
    | .checkCancel => c.sinceClosing = finalPass.take 3 ∨ c.sinceClosing = finalPassRotated.take 7
    | .done .shutdown => c.sinceClosing = finalPass ∨ c.sinceClosing = finalPassRotated
    | .done .failed => c.sinceClosing = finalPass.take 3 ∨ c.sinceClosing = finalPassRotated.take 6
    | .blocked => c.sinceClosing = finalPass.take 3 ∨ c.sinceClosing = finalPassRotated.take 6
    | _ => False
  else c.sinceClosing = [] ∧ c.pc ≠ .done .shutdown

/-- The position at which the first drain is to begin, given the world at the call of
`mirrorLog`: the size of the file when the path exists and `fromStart` is false, and 0
otherwise. -/
def startPos (w0 : World) (fromStart : Bool) : Nat :=
  match w0.path with
  | some id => if fromStart then 0 else (w0.content id).length
  | none => 0

/-- The value of `offset` once `mirrorLog` has looked at the path, given the world at the
call. -/
def startOffset (w0 : World) : Nat :=
  match w0.path with
  | some id => (w0.content id).length
  | none => 0

/-- State of the session up to its first drain, in terms of the world `w0` at the call of
`mirrorLog`. -/
def StartInv (P : Params) (w0 : World) (c : Cfg) : Prop :=
  match c.pc with
  | .statPath => False
  | .openFirst =>
    (∃ id, w0.path = some id ∧ c.fi = some (w0.info id)) ∧ c.drains = 0 ∧ c.dispatched = []
      ∧ c.seekFailed = false
  | .waitCheck .first => c.offset = 0 ∧ c.drains = 0 ∧ c.dispatched = [] ∧ c.seekFailed = false
      ∧ w0.path = none
  | .waitStat .first => c.offset = 0 ∧ c.drains = 0 ∧ c.dispatched = [] ∧ c.seekFailed = false
      ∧ w0.path = none
  | .waitCancelStat .first => c.offset = 0 ∧ c.drains = 0 ∧ c.dispatched = []
      ∧ c.seekFailed = false ∧ w0.path = none
  | .waitSleep .first => c.offset = 0 ∧ c.drains = 0 ∧ c.dispatched = []
      ∧ c.seekFailed = false ∧ w0.path = none
  | .openWaited => c.offset = 0 ∧ c.drains = 0 ∧ c.dispatched = [] ∧ c.seekFailed = false
      ∧ w0.path = none
  | .statHandle =>
    (∃ id, c.f = some ⟨id, 0⟩) ∧ c.offset = startOffset w0 ∧ c.drains = 0 ∧ c.dispatched = []
      ∧ c.seekFailed = false
  | .seek =>
    (∃ id, c.f = some ⟨id, 0⟩) ∧ c.offset = startOffset w0 ∧ c.drains = 0 ∧ c.dispatched = []
      ∧ c.seekFailed = false ∧ P.fromStart = false
  | .drain =>
    c.drains = 0 →
      c.dispatched = [] ∧ (c.seekFailed = false → ∃ id, c.f = some ⟨id, startPos w0 P.fromStart⟩)
  | .setupFailed => True
  | .blocked => True
  | .done _ => True
  | _ => 0 < c.drains

/-- Relation between the control point and the numbers of files opened and closed: the
session holds one open file from its first successful open on, except between the close
and the reopen of a rotation; and the `return` of `if fi == nil` is never taken. -/
def HandleInv (c : Cfg) : Prop :=
  match c.pc with
  | .statPath => c.opens = c.closes ∧ c.f = none
  | .openFirst => c.opens = c.closes
  | .waitCheck .first => c.opens = c.closes
  | .waitStat .first => c.opens = c.closes
  | .waitCancelStat .first => c.opens = c.closes
  | .waitSleep .first => c.opens = c.closes
  | .openWaited => c.opens = c.closes
  | .reopen => c.opens = c.closes
  | .setupFailed => True
  | .blocked => True
  | .done .failed => True
  | .done .noFile => False
  | _ => c.opens = c.closes + 1

/-- Whether the control point belongs to the goroutine (the goroutine was launched). -/
def PC.inTask : PC → Bool
  | .statPath => false
  | .openFirst => false
  | .setupFailed => false
  | _ => true

/-- Whether the goroutine has returned. -/
def PC.isDone : PC → Bool
  | .done _ => true
  | _ => false

/-! ## Concrete runs -/

/-- Arguments used in the concrete runs: `fromStart` false, a consumer that accepts every
line, `isQMLog` false. -/
def tailParams : Params := ⟨false, fun _ _ => true, false⟩

/-- A tick in which the environment performs `acts` and no system call fails. -/
def Tick.env (acts : List EnvAct) : Tick := ⟨acts, false⟩

/-- A world in which the path names nothing. -/
def World.absent : World := ⟨[], none, false⟩

/-- A world in which the path names a file that holds the line `"a"`. -/
def World.oneLine : World := ⟨[[97, 10]], some 0, false⟩

/-- The path does not exist, and the context is cancelled while the goroutine waits for
the file. -/
def cancelWhileAbsent : List Tick := [Tick.quiet, Tick.env [.cancel], Tick.quiet]

/-- The file exists; the session tails it, the context is cancelled and the goroutine
returns after its last pass. -/
def tailThenCancel : List Tick :=
  List.replicate 7 Tick.quiet ++ [Tick.env [.cancel]] ++ List.replicate 5 Tick.quiet

/-- Two rotations, the second one between the `os.Stat` that detects the first and the
`os.OpenFile` that follows.  The session tails the first file, to which the line `"b"` is
written; the path is rotated and the line `"c"` written to the intermediate file before
`waitForFile` looks at the path; the path is rotated again and the line `"d"` written to
the last file before the old file is drained and the path reopened. -/
def rotateTwice : List Tick :=
  List.replicate 4 Tick.quiet ++
    [Tick.env [.write [98, 10]], Tick.quiet,
     Tick.env [.rename, .create, .write [99, 10]],
     Tick.env [.rename, .create, .write [100, 10]]] ++
    List.replicate 12 Tick.quiet

/-- The path does not exist at the call; the file is created, the line `"a"` is written,
the path is rotated and the line `"b"` is written to the new file, all between two polls
of `waitForFile`; later the context is cancelled. -/
def rotateBeforeOpen : List Tick :=
  [Tick.quiet, Tick.env [.create, .write [97, 10], .rename, .create, .write [98, 10]]] ++
    List.replicate 6 Tick.quiet ++ [Tick.env [.cancel]] ++ List.replicate 4 Tick.quiet

/-- The session tails the file; the context is cancelled; after the last drain of the
last pass, and before the goroutine returns, the line `"b"` is written, the path is rotated
and the line `"c"` is written to the new file. -/
def rotateAfterLastDrain : List Tick :=
  List.replicate 7 Tick.quiet ++ [Tick.env [.cancel]] ++ List.replicate 3 Tick.quiet ++
    [Tick.env [.write [98, 10], .rename, .create, .write [99, 10]]]

/-- The session has opened the file; the line `"b"` is written, the path is rotated and the
line `"c"` is written to the new file; then `f.Stat()` fails. -/
def rotateThenStatFails : List Tick :=
  [Tick.quiet, Tick.quiet, ⟨[.write [98, 10], .rename, .create, .write [99, 10]], true⟩]

/-- The session tails the file; the path is renamed away and, before a new file is
created, the context is cancelled.  No system call fails. -/
def cancelWhileRenamed : List Tick :=
  List.replicate 7 Tick.quiet ++ [Tick.env [.rename, .cancel]] ++ List.replicate 3 Tick.quiet

/-! ## Runs with at most one rotation, in which the session sees every line

The environment appends complete lines, rotates the path at most once and only when the
session holds the file open, and cancels the context while the path exists; the
cancellation is its last action (no write, rename or creation follows it). -/

/-- Whether the bytes are one line with its newline: no other newline, and short enough
for the scanner. -/
def isLine (bytes : List Nat) : Bool :=
  bytes.getLast? = some 10 && !bytes.dropLast.contains 10 && bytes.length ≤ MaxScanTokenSize

/-- Whether the environment may perform the action, the session being in state `c`:
* a write appends one complete line to the file that the path names, before the
  cancellation;
* the path is renamed away once, before the cancellation, and only when it names the
  first file and the session holds a file open;
* a file is created only when the path names nothing, before the cancellation;
* the context is cancelled only when the path names a file;
* so nothing but a repeated cancellation happens after the cancellation. -/
def envOK (c : Cfg) (w : World) : EnvAct → Bool
  | .write bytes => !w.cancelled && w.path.isSome && isLine bytes
  | .rename =>
    !w.cancelled && c.f.isSome && decide (w.path = some 0) && decide (w.files.length = 1)
  | .create => !w.cancelled && w.path.isNone
  | .cancel => w.path.isSome

/-- Whether the environment may perform the actions, in this order. -/
def validActs (c : Cfg) : World → List EnvAct → Bool
  | _, [] => true
  | w, a :: as => envOK c w a && validActs c (w.apply a) as

/-- Whether the schedule is one in which no system call fails and the environment only
does what `envOK` allows. -/
def validRun (P : Params) : World → Cfg → List Tick → Bool
  | _, _, [] => true
  | w, c, t :: ts =>
    !t.fault && validActs c w t.acts
      && validRun P (w.applyAll t.acts) (step P (w.applyAll t.acts) t.fault c) ts

/-- The world at the call of `mirrorLog`: the path names nothing, or it names a file that
holds the given bytes. -/
def startWorld : Option (List Nat) → World
  | none => World.absent
  | some data => ⟨[data], some 0, false⟩

/-- The calls of the consumer for the complete lines of a content: each line less its
newline and less one trailing carriage return, with the tag `isQMLog`. -/
def linesOf (P : Params) (data : List Nat) : List (List Nat × Bool) :=
  ((completeLines data).map dropCR).map (fun t => (t, P.isQMLog))

/-- A content made of complete lines, each short enough for the scanner. -/
def Closed (data : List Nat) : Prop :=
  ∃ ls : List (List Nat), (∀ l ∈ ls, 10 ∉ l ∧ l.length < MaxScanTokenSize) ∧ data = joinLines ls

/-- Position of the handle of the session (0 when it has none). -/
def Cfg.pos (c : Cfg) : Nat :=
  match c.f with
  | some h => h.pos
  | none => 0

/-- The file the handle of the session reads. -/
def Cfg.file (c : Cfg) : Option FileId := c.f.map (fun (h : Handle) => h.file)

/-- The file that `fi` describes. -/
def Cfg.fiFile (c : Cfg) : Option FileId := c.fi.map (fun (i : FileInfo) => i.file)

/-- The file that `newFI` describes. -/
def Cfg.newFIFile (c : Cfg) : Option FileId := c.newFI.map (fun (i : FileInfo) => i.file)

/-- The shape of the world in these runs: the path names nothing and at most one file was
ever created, or it names the first file, or, after the rotation, the second one; and once
the context is cancelled the path names a file. -/
def Shape (w : World) : Prop :=
  ((w.path = none ∧ w.files.length ≤ 1) ∨ (w.path = some 0 ∧ w.files.length = 1)
      ∨ (w.path = some 1 ∧ w.files.length = 2))
    ∧ (w.cancelled = true → w.path ≠ none)

/-- The first file, from the position where the session starts, and the second file are
made of complete lines. -/
def Region (P : Params) (w0 w : World) : Prop :=
  startPos w0 P.fromStart ≤ (w.content 0).length
    ∧ Closed ((w.content 0).drop (startPos w0 P.fromStart))
    ∧ Closed (w.content 1)

/-- The session has not opened a file yet (and so the path has not been rotated). -/
def Unopened (w : World) (c : Cfg) : Prop :=
  c.f = none ∧ c.dispatched = [] ∧ c.closing = false ∧ w.files.length ≤ 1
    ∧ (w.path = none → w.files.length = 0)

/-- The session has opened the first file and has not read from it. -/
def Fresh (w0 : World) (c : Cfg) : Prop :=
  c.f = some ⟨0, 0⟩ ∧ c.offset = startOffset w0 ∧ c.dispatched = [] ∧ c.closing = false

/-- The session reads the first file: it has dispatched the lines between the start
position and the position of its handle, which stands between two lines. -/
def Tail0 (P : Params) (w0 w : World) (c : Cfg) : Prop :=
  c.file = some 0 ∧ c.fiFile = some 0
    ∧ startPos w0 P.fromStart ≤ c.pos ∧ c.pos ≤ (w.content 0).length
    ∧ Closed (((w.content 0).take c.pos).drop (startPos w0 P.fromStart))
    ∧ Closed ((w.content 0).drop c.pos)
    ∧ c.dispatched = linesOf P (((w.content 0).take c.pos).drop (startPos w0 P.fromStart))

/-- The session reads the second file: it has dispatched the lines of the first file from
the start position on, and the lines of the second file up to the position of its
handle. -/
def Tail1 (P : Params) (w0 w : World) (c : Cfg) : Prop :=
  c.file = some 1 ∧ c.fiFile = some 1 ∧ w.files.length = 2
    ∧ c.pos ≤ (w.content 1).length
    ∧ Closed ((w.content 1).take c.pos)
    ∧ Closed ((w.content 1).drop c.pos)
    ∧ c.dispatched = linesOf P ((w.content 0).drop (startPos w0 P.fromStart))
        ++ linesOf P ((w.content 1).take c.pos)

/-- The handle of the session stands at the end of its file. -/
def Drained (w : World) (c : Cfg) : Prop :=
  (c.file = some 0 ∧ c.pos = (w.content 0).length)
    ∨ (c.file = some 1 ∧ c.pos = (w.content 1).length)

/-- What holds at each control point in these runs. -/
def Local (P : Params) (w0 w : World) (c : Cfg) : Prop :=
  match c.pc with
  | .openFirst => Unopened w c ∧ w0.path = some 0 ∧ c.fi = some (w0.info 0) ∧ w.path = some 0
  | .waitCheck .first => Unopened w c ∧ c.offset = 0 ∧ w0.path = none
  | .waitStat .first => Unopened w c ∧ c.offset = 0 ∧ w0.path = none
  | .waitSleep .first => Unopened w c ∧ c.offset = 0 ∧ w0.path = none
  | .waitCancelStat .first =>
    Unopened w c ∧ c.offset = 0 ∧ w0.path = none ∧ w.cancelled = true
  | .openWaited => Unopened w c ∧ c.offset = 0 ∧ w0.path = none ∧ w.path = some 0
  | .statHandle => Fresh w0 c
  | .seek => Fresh w0 c ∧ c.fiFile = some 0 ∧ c.offset ≠ 0 ∧ P.fromStart = false
  | .drain => Tail0 P w0 w c ∨ Tail1 P w0 w c
  | .waitCheck .loop => (Tail0 P w0 w c ∨ Tail1 P w0 w c) ∧ (c.closing = true → Drained w c)
  | .waitStat .loop => (Tail0 P w0 w c ∨ Tail1 P w0 w c) ∧ c.closing = false
  | .waitSleep .loop => (Tail0 P w0 w c ∨ Tail1 P w0 w c) ∧ c.closing = false
  | .waitCancelStat .loop =>
    (Tail0 P w0 w c ∨ Tail1 P w0 w c) ∧ (c.closing = true → Drained w c)
      ∧ w.cancelled = true
  | .checkCancel =>
    (Tail0 P w0 w c ∨ Tail1 P w0 w c) ∧ (c.closing = true → Drained w c ∧ c.file = w.path)
  | .sleep => (Tail0 P w0 w c ∨ Tail1 P w0 w c) ∧ c.closing = false
  | .drainOld => Tail0 P w0 w c ∧ w.files.length = 2 ∧ c.newFIFile = some 1
  | .closeOld =>
    Tail0 P w0 w c ∧ w.files.length = 2 ∧ c.newFIFile = some 1
      ∧ c.pos = (w.content 0).length
  | .reopen =>
    Tail0 P w0 w c ∧ w.files.length = 2 ∧ c.newFIFile = some 1
      ∧ c.pos = (w.content 0).length
  | .drainNew => Tail1 P w0 w c
  | .done .shutdown =>
    w.cancelled = true
      ∧ c.dispatched = linesOf P ((w.content 0).drop (startPos w0 P.fromStart))
          ++ linesOf P (w.content 1)
  | _ => False

/-- The invariant of these runs. -/
def Inv2 (P : Params) (w0 w : World) (c : Cfg) : Prop :=
  Shape w ∧ Region P w0 w ∧ c.errorChannel = [] ∧ (c.closing = true → w.cancelled = true)
    ∧ Local P w0 w c

/-- A bound on the number of steps to the return of the goroutine, once the context is
cancelled. -/
def rank : PC → Nat
  | .done _ => 0
  | .setupFailed => 0
  | .blocked => 0
  | .checkCancel => 1
  | .drainNew => 2
  | .reopen => 3
  | .closeOld => 4
  | .drainOld => 5
  | .waitCancelStat .loop => 6
  | .waitStat .loop => 6
  | .waitCheck .loop => 7
  | .waitSleep .loop => 8
  | .drain => 8
  | .sleep => 9
  | .seek => 9
  | .statHandle => 10
  | .openWaited => 11
  | .openFirst => 11
  | .waitCancelStat .first => 12
  | .waitStat .first => 12
  | .waitCheck .first => 13
  | .waitSleep .first => 14
  | .statPath => 15

/-- The measure that decreases at every step once the context is cancelled. -/
def measure (c : Cfg) : Nat := rank c.pc + (if c.closing then 0 else 9)

/-- A run with one rotation, after the first step of `mirrorLog`: the session opens the
file; the line `"b"` is appended; the path is rotated and the line `"c"` is written to the
new file; later the context is cancelled. -/
def rotateOnce : List Tick :=
  List.replicate 3 Tick.quiet ++
    [Tick.env [.write [98, 10]], Tick.quiet,
     Tick.env [.rename, .create, .write [99, 10]]] ++
    List.replicate 5 Tick.quiet ++ [Tick.env [.cancel]]

/-- The parameters of a session that mirrors the file from its start. -/
def headParams : Params := ⟨true, fun _ _ => true, false⟩

/-! ## Facts about the scanner -/

theorem indexOf_line (l rest : List Nat) (h : 10 ∉ l) :
    (l ++ 10 :: rest).indexOf 10 = l.length := by
  induction l with
  | nil => simp
  | cons a t ih =>
    have ha : a ≠ 10 := fun e => h (by simp [e])
    have ht : 10 ∉ t := fun e => h (by simp [e])
    simp [List.indexOf_cons, ha, ih ht]

theorem ScanLines_line (l rest : List Nat) (eof : Bool) (h : 10 ∉ l) :
    ScanLines (l ++ 10 :: rest) eof = (l.length + 1, some (dropCR l)) := by
  have hc : (l ++ 10 :: rest).contains 10 = true := by simp
  have hne : (l ++ 10 :: rest).isEmpty = false := by cases l <;> simp
  simp [ScanLines, hc, hne, indexOf_line l rest h]

theorem ScanLines_frag (frag : List Nat) (h : 10 ∉ frag) (hne : frag ≠ []) :
    ScanLines frag true = (frag.length, some (dropCR frag)) := by
  have he : frag.isEmpty = false := by cases frag <;> simp at hne ⊢
  simp [ScanLines, he, h]

theorem take_line (maxTok : Nat) (l rest : List Nat) (h : l.length < maxTok) :
    (l ++ 10 :: rest).take maxTok = l ++ 10 :: rest.take (maxTok - (l.length + 1)) := by
  rw [List.take_append_eq_append_take, List.take_of_length_le (le_of_lt h)]
  have hk : maxTok - l.length = (maxTok - (l.length + 1)) + 1 := by omega
  rw [hk, List.take_succ_cons]

theorem scanLoop_nil (maxTok fuel : Nat) (h : 0 < maxTok) :
    scanLoop maxTok fuel [] = ⟨[], 0, false⟩ := by
  cases fuel with
  | zero => rfl
  | succ n => simp [scanLoop, ScanLines, h]

theorem scanLoop_frag (maxTok fuel : Nat) (frag : List Nat) (h : 10 ∉ frag)
    (hlen : frag.length < maxTok) (hfuel : 0 < fuel) :
    scanLoop maxTok fuel frag =
      ⟨if frag = [] then [] else [dropCR frag], frag.length, false⟩ := by
  by_cases hne : frag = []
  · subst hne; simp [scanLoop_nil maxTok fuel hlen]
  · obtain ⟨n, rfl⟩ : ∃ n, fuel = n + 1 := ⟨fuel - 1, by omega⟩
    have hpos : 0 < maxTok := by omega
    simp [scanLoop, hlen, List.take_of_length_le (le_of_lt hlen), ScanLines_frag frag h hne,
      scanLoop_nil maxTok n hpos, hne]

theorem scanLoop_line (maxTok fuel : Nat) (l rest : List Nat) (h : 10 ∉ l)
    (hlen : l.length < maxTok) :
    scanLoop maxTok (fuel + 1) (l ++ 10 :: rest) =
      ⟨dropCR l :: (scanLoop maxTok fuel rest).tokens,
        l.length + 1 + (scanLoop maxTok fuel rest).read,
        (scanLoop maxTok fuel rest).tooLong⟩ := by
  simp only [scanLoop, take_line maxTok l rest hlen, ScanLines_line l _ _ h]
  have : List.drop (l.length + 1) (l ++ 10 :: rest) = rest := by
    rw [List.drop_append_eq_append_drop]
    simp
  simp [this]

theorem length_joinLines_append (l : List Nat) (ls : List (List Nat)) (frag : List Nat) :
    (joinLines (l :: ls) ++ frag).length = l.length + 1 + (joinLines ls ++ frag).length := by
  simp [joinLines]; omega

theorem scanLoop_lines (maxTok : Nat) (ls : List (List Nat)) (frag : List Nat)
    (hls : ∀ l ∈ ls, 10 ∉ l ∧ l.length < maxTok)
    (hfrag : 10 ∉ frag ∧ frag.length < maxTok) (fuel : Nat)
    (hfuel : (joinLines ls ++ frag).length < fuel) :
    scanLoop maxTok fuel (joinLines ls ++ frag) =
      ⟨ls.map dropCR ++ (if frag = [] then [] else [dropCR frag]),
        (joinLines ls ++ frag).length, false⟩ := by
  induction ls generalizing fuel with
  | nil =>
    simpa [joinLines] using scanLoop_frag maxTok fuel frag hfrag.1 hfrag.2 (by omega)
  | cons l ls ih =>
    obtain ⟨n, rfl⟩ : ∃ n, fuel = n + 1 := ⟨fuel - 1, by omega⟩
    have hl := hls l (by simp)
    have hrest : ∀ l' ∈ ls, 10 ∉ l' ∧ l'.length < maxTok :=
      fun l' h' => hls l' (by simp [h'])
    rw [length_joinLines_append] at hfuel
    have := ih hrest n (by omega)
    have e : joinLines (l :: ls) ++ frag = l ++ 10 :: (joinLines ls ++ frag) := by
      simp [joinLines]
    rw [length_joinLines_append, e, scanLoop_line maxTok n l _ hl.1 hl.2, this]
    simp

theorem scanLoop_tooLong (maxTok fuel : Nat) (data : List Nat) (hlen : maxTok ≤ data.length)
    (h : 10 ∉ data.take maxTok) :
    scanLoop maxTok (fuel + 1) data = ⟨[], maxTok, true⟩ := by
  have hlt : ¬ data.length < maxTok := by omega
  simp [scanLoop, ScanLines, hlt, h]

theorem completeLinesAux_line (cur l rest : List Nat) (h : 10 ∉ l) :
    completeLinesAux cur (l ++ 10 :: rest) = (l.reverse ++ cur).reverse :: completeLinesAux [] rest := by
  induction l generalizing cur with
  | nil => simp [completeLinesAux]
  | cons a t ih =>
    have ha : a ≠ 10 := fun e => h (by simp [e])
    have ht : 10 ∉ t := fun e => h (by simp [e])
    simp [completeLinesAux, ha, ih _ ht]

theorem completeLines_joinLines (ls : List (List Nat)) (h : ∀ l ∈ ls, 10 ∉ l) :
    completeLines (joinLines ls) = ls := by
  induction ls with
  | nil => rfl
  | cons l ls ih =>
    have hl := h l (by simp)
    have := ih (fun l' h' => h l' (by simp [h']))
    simp only [completeLines] at this ⊢
    simp [joinLines, completeLinesAux_line _ l _ hl, this]

theorem ScanLines_advance (win : List Nat) (eof : Bool) (adv : Nat) (tok : List Nat)
    (h : ScanLines win eof = (adv, some tok)) : 1 ≤ adv ∧ win ≠ [] := by
  have hne : win ≠ [] := by
    intro e
    subst e
    cases eof <;> simp [ScanLines] at h
  refine ⟨?_, hne⟩
  unfold ScanLines at h
  split_ifs at h with h1 h2 h3
  · simp at h
  · simp only [Prod.mk.injEq] at h; omega
  · simp only [Prod.mk.injEq] at h
    have : 0 < win.length := List.length_pos.mpr hne
    omega
  · simp at h

/-- The bound on the number of iterations of `scanLoop` is immaterial once it exceeds the
length of the data: `scanAll` runs the loop to its end. -/
theorem scanLoop_fuel (maxTok : Nat) (f1 f2 : Nat) (data : List Nat)
    (h1 : data.length < f1) (h2 : data.length < f2) :
    scanLoop maxTok f1 data = scanLoop maxTok f2 data := by
  induction f1 generalizing f2 data with
  | zero => omega
  | succ n ih =>
    obtain ⟨k, rfl⟩ : ∃ k, f2 = k + 1 := ⟨f2 - 1, by omega⟩
    simp only [scanLoop]
    rcases hr : ScanLines (List.take maxTok data) (decide (data.length < maxTok)) with
      ⟨adv, _ | tok⟩
    · rfl
    · obtain ⟨hadv, hne⟩ := ScanLines_advance _ _ _ _ hr
      have hd : 0 < data.length := by
        apply List.length_pos.mpr
        intro e
        exact hne (by simp [e])
      have hlen : (data.drop adv).length < n := by
        rw [List.length_drop]; omega
      have hlen' : (data.drop adv).length < k := by
        rw [List.length_drop]; omega
      simp only [ih k (data.drop adv) hlen hlen']

theorem scanLoop_scanAll (fuel : Nat) (data : List Nat) (h : data.length < fuel) :
    scanLoop MaxScanTokenSize fuel data = scanAll data :=
  scanLoop_fuel MaxScanTokenSize fuel (data.length + 1) data h (by omega)

theorem calls_long_line (n : Nat) (h : MaxScanTokenSize ≤ n) (mf : mirrorFunc) (tag : Bool) :
    (mirrorAvailableMessages (List.replicate n 97 ++ [10]) mf tag).calls = [] := by
  have h1 : scanAll (List.replicate n 97 ++ [10]) = ⟨[], MaxScanTokenSize, true⟩ := by
    unfold scanAll
    apply scanLoop_tooLong
    · rw [List.length_append, List.length_replicate]; omega
    · rw [List.take_append_of_le_length (by rw [List.length_replicate]; exact h)]
      intro hm
      have := List.mem_of_mem_take hm
      rw [List.mem_replicate] at this
      omega
  simp only [mirrorAvailableMessages, h1, List.map_nil]

theorem completeLines_long_line (n : Nat) :
    completeLines (List.replicate n 97 ++ [10]) = [List.replicate n 97] := by
  have h : (10 : Nat) ∉ List.replicate n 97 := by
    rw [List.mem_replicate]; omega
  have := completeLinesAux_line [] (List.replicate n 97) [] h
  simp only [completeLines, this, completeLinesAux, List.append_nil, List.reverse_reverse]

/-- C1 (as stated, refuted): three contents on which the calls of the consumer are not the
complete newline-terminated lines with the terminator removed.
* On `"ab\ncd"` the calls are `"ab"`, `"cd"`: the unterminated fragment `"cd"` is handed
  to the consumer as a line.
* On `"a\r\n"` the call is `"a"`, not the text `"a\r"` that precedes the newline.
* On a line of 65536 bytes followed by a newline there is no call: the scanner stops with
  `ErrTooLong` and the line is never handed to the consumer. -/
theorem C1_not_exactly_complete_lines :
    (mirrorAvailableMessages [97, 98, 10, 99, 100] (fun _ _ => true) true).calls
        ≠ (completeLines [97, 98, 10, 99, 100]).map (fun t => (t, true))
    ∧ (mirrorAvailableMessages [97, 13, 10] (fun _ _ => true) true).calls
        ≠ (completeLines [97, 13, 10]).map (fun t => (t, true))
    ∧ (mirrorAvailableMessages (List.replicate 65536 97 ++ [10]) (fun _ _ => true) true).calls
        ≠ (completeLines (List.replicate 65536 97 ++ [10])).map (fun t => (t, true)) := by
  refine ⟨by decide, by decide, ?_⟩
  intro h
  rw [calls_long_line 65536 (Nat.le_refl _), completeLines_long_line] at h
  exact List.noConfusion h

/-- C1 (amended): on a content made of the lines `ls`, each followed by a newline, and then
an unterminated fragment `frag`, where no line and no fragment contains a newline or
reaches `MaxScanTokenSize` bytes, `mirrorAvailableMessages` calls the consumer exactly once
for each line, in file order, with the line less its newline and less one trailing carriage
return and with the given `isQMLog` tag, then once more for the fragment when it is not
empty, and makes no other call; the scan takes the whole content and reports no error. -/
theorem C1_mirrorAvailableMessages_lines (ls : List (List Nat)) (frag : List Nat)
    (mf : mirrorFunc) (isQMLog : Bool)
    (hls : ∀ l ∈ ls, 10 ∉ l ∧ l.length < MaxScanTokenSize)
    (hfrag : 10 ∉ frag ∧ frag.length < MaxScanTokenSize) :
    (mirrorAvailableMessages (joinLines ls ++ frag) mf isQMLog).calls
        = (ls.map dropCR ++ (if frag = [] then [] else [dropCR frag])).map
            (fun t => (t, isQMLog))
    ∧ (mirrorAvailableMessages (joinLines ls ++ frag) mf isQMLog).read
        = (joinLines ls ++ frag).length
    ∧ (mirrorAvailableMessages (joinLines ls ++ frag) mf isQMLog).failed = false := by
  have h := scanLoop_lines MaxScanTokenSize ls frag hls hfrag
    ((joinLines ls ++ frag).length + 1) (by omega)
  simp only [mirrorAvailableMessages, scanAll, h]
  simp

/-- C1 (amended), at a concrete input: the content `"ab\r\n\ncd"`. -/
theorem C1_mirrorAvailableMessages_lines_witness :
    (mirrorAvailableMessages (joinLines [[97, 98, 13], []] ++ [99, 100]) (fun _ _ => true)
        true).calls
        = ([[97, 98, 13], []].map dropCR ++
            (if [99, 100] = [] then [] else [dropCR [99, 100]])).map (fun t => (t, true))
    ∧ (mirrorAvailableMessages (joinLines [[97, 98, 13], []] ++ [99, 100]) (fun _ _ => true)
        true).read = (joinLines [[97, 98, 13], []] ++ [99, 100]).length
    ∧ (mirrorAvailableMessages (joinLines [[97, 98, 13], []] ++ [99, 100]) (fun _ _ => true)
        true).failed = false :=
  C1_mirrorAvailableMessages_lines [[97, 98, 13], []] [99, 100] (fun _ _ => true) true
    (by decide) (by decide)

/-! ## Facts about `strings.TrimSpace` -/

theorem isSpaceRune_ne_nil (enc : List Nat) (h : isSpaceRune enc = true) : enc ≠ [] := by
  intro e; subst e; simp [isSpaceRune] at h

/-- The bound on the number of characters removed by `trimLeftSpace` is immaterial once it
reaches the length of the string. -/
theorem trimLeftSpace_fuel (f1 f2 : Nat) (s : List Nat) (h1 : s.length ≤ f1)
    (h2 : s.length ≤ f2) : trimLeftSpace f1 s = trimLeftSpace f2 s := by
  induction f1 generalizing f2 s with
  | zero =>
    have : s = [] := List.length_eq_zero.mp (by omega)
    subst this
    cases f2 <;> simp [trimLeftSpace, isSpaceRune]
  | succ n ih =>
    cases f2 with
    | zero =>
      have : s = [] := List.length_eq_zero.mp (by omega)
      subst this
      simp [trimLeftSpace, isSpaceRune]
    | succ k =>
      have key : ∀ j, 0 < j → isSpaceRune (s.take j) = true →
          trimLeftSpace n (s.drop j) = trimLeftSpace k (s.drop j) := by
        intro j hj hsp
        have hne := isSpaceRune_ne_nil _ hsp
        have hs : 0 < s.length := by
          apply List.length_pos.mpr
          intro e; exact hne (by simp [e])
        exact ih k _ (by rw [List.length_drop]; omega) (by rw [List.length_drop]; omega)
      simp only [trimLeftSpace]
      split_ifs with a b c
      · exact key 1 (by omega) a
      · exact key 2 (by omega) b
      · exact key 3 (by omega) c
      · rfl

/-- The same for `trimRightSpaceRev`. -/
theorem trimRightSpaceRev_fuel (f1 f2 : Nat) (r : List Nat) (h1 : r.length ≤ f1)
    (h2 : r.length ≤ f2) : trimRightSpaceRev f1 r = trimRightSpaceRev f2 r := by
  induction f1 generalizing f2 r with
  | zero =>
    have : r = [] := List.length_eq_zero.mp (by omega)
    subst this
    cases f2 <;> simp [trimRightSpaceRev, isSpaceRune]
  | succ n ih =>
    cases f2 with
    | zero =>
      have : r = [] := List.length_eq_zero.mp (by omega)
      subst this
      simp [trimRightSpaceRev, isSpaceRune]
    | succ k =>
      have key : ∀ j, 0 < j → isSpaceRune (r.take j).reverse = true →
          trimRightSpaceRev n (r.drop j) = trimRightSpaceRev k (r.drop j) := by
        intro j hj hsp
        have hne := isSpaceRune_ne_nil _ hsp
        have hs : 0 < r.length := by
          apply List.length_pos.mpr
          intro e; exact hne (by simp [e])
        exact ih k _ (by rw [List.length_drop]; omega) (by rw [List.length_drop]; omega)
      simp only [trimRightSpaceRev]
      split_ifs with a b c
      · exact key 1 (by omega) a
      · exact key 2 (by omega) b
      · exact key 3 (by omega) c
      · rfl

/-! ## The step function, control point by control point -/

theorem step_setupFailed (P : Params) (w : World) (fault : Bool) (c : Cfg)
    (h : c.pc = .setupFailed) : step P w fault c = c := by
  simp only [step, h]

theorem step_blocked (P : Params) (w : World) (fault : Bool) (c : Cfg)
    (h : c.pc = .blocked) : step P w fault c = c := by
  simp only [step, h]

theorem step_done (P : Params) (w : World) (fault : Bool) (c : Cfg) (e : Exit)
    (h : c.pc = .done e) : step P w fault c = c := by
  simp only [step, h]

theorem step_statPath (P : Params) (w : World) (fault : Bool) (c : Cfg)
    (h : c.pc = .statPath) :
    step P w fault c =
      match osStat w fault with
      | (fi, some .notExist) => { c with fi := fi, err := some .notExist, offset := 0 }.launch
      | (fi, some e) =>
        { c with fi := fi, err := some e, pc := .setupFailed, ret := some (some e) }
      | (fi, none) => { c with fi := fi, err := none, pc := .openFirst } := by
  simp only [step, h]

theorem step_openFirst (P : Params) (w : World) (fault : Bool) (c : Cfg)
    (h : c.pc = .openFirst) :
    step P w fault c =
      match osOpenFile w fault with
      | (f, some e) => { c with f := f, err := some e, pc := .setupFailed, ret := some (some e) }
      | (f, none) =>
        { c with
          f := f
          err := none
          opens := c.opens + 1
          offset := match c.fi with
            | some i => (i.size : Int)
            | none => c.offset }.launch := by
  simp only [step, h]

theorem step_waitCheck (P : Params) (w : World) (fault : Bool) (c : Cfg) (s : Site)
    (h : c.pc = .waitCheck s) :
    step P w fault c =
      { c.note with pc := if w.cancelled then .waitCancelStat s else .waitStat s } := by
  simp only [step, h]

theorem step_waitCancelStat (P : Params) (w : World) (fault : Bool) (c : Cfg) (s : Site)
    (h : c.pc = .waitCancelStat s) :
    step P w fault c =
      c.note.afterWait s (osStat w fault) := by
  simp only [step, h]

theorem step_waitStat (P : Params) (w : World) (fault : Bool) (c : Cfg) (s : Site)
    (h : c.pc = .waitStat s) :
    step P w fault c =
      match osStat w fault with
      | (_, some .notExist) => { c.note with pc := .waitSleep s }
      | (_, some _) => c.note.afterWait s (none, some .unableToGetInfo)
      | (fi, none) => c.note.afterWait s (fi, none) := by
  simp only [step, h]

theorem step_waitSleep (P : Params) (w : World) (fault : Bool) (c : Cfg) (s : Site)
    (h : c.pc = .waitSleep s) :
    step P w fault c =
      { c.note with pc := .waitCheck s } := by
  simp only [step, h]

theorem step_openWaited (P : Params) (w : World) (fault : Bool) (c : Cfg)
    (h : c.pc = .openWaited) :
    step P w fault c =
      match osOpenFile w fault with
      | (f, some e) => { c with f := f, err := some e }.send e
      | (f, none) => { c with f := f, err := none, opens := c.opens + 1, pc := .statHandle } := by
  simp only [step, h]

theorem step_statHandle (P : Params) (w : World) (fault : Bool) (c : Cfg)
    (h : c.pc = .statHandle) :
    step P w fault c =
      if fault then { c with fi := none, err := some .handleStat }.send .handleStat
      else
        { c with
          fi := c.f.map (fun (h : Handle) => w.info h.file)
          err := none
          pc := if c.offset ≠ (0 : Int) ∧ P.fromStart = false then .seek else .drain } := by
  simp only [step, h]

theorem step_seek (P : Params) (w : World) (fault : Bool) (c : Cfg)
    (h : c.pc = .seek) :
    step P w fault c =
      { c with
        f := if fault then c.f
          else c.f.map (fun (h : Handle) => { h with pos := c.offset.toNat })
        seekFailed := fault
        pc := .drain } := by
  simp only [step, h]

theorem step_drain (P : Params) (w : World) (fault : Bool) (c : Cfg)
    (h : c.pc = .drain) :
    step P w fault c =
      { (c.note.mirror P w fault) with pc := .waitCheck .loop } := by
  simp only [step, h]

theorem step_drainOld (P : Params) (w : World) (fault : Bool) (c : Cfg)
    (h : c.pc = .drainOld) :
    step P w fault c =
      { (c.note.mirror P w fault) with pc := .closeOld } := by
  simp only [step, h]

theorem step_closeOld (P : Params) (w : World) (fault : Bool) (c : Cfg)
    (h : c.pc = .closeOld) :
    step P w fault c =
      { c.note with closes := c.closes + 1, pc := .reopen } := by
  simp only [step, h]

theorem step_reopen (P : Params) (w : World) (fault : Bool) (c : Cfg)
    (h : c.pc = .reopen) :
    step P w fault c =
      match osOpenFile w fault with
      | (f, some e) => { c.note with f := f, err := some e }.send e
      | (f, none) =>
        { c.note with f := f, err := none, opens := c.opens + 1, fi := c.newFI, pc := .drainNew } := by
  simp only [step, h]

theorem step_drainNew (P : Params) (w : World) (fault : Bool) (c : Cfg)
    (h : c.pc = .drainNew) :
    step P w fault c =
      { (c.note.mirror P w fault) with pc := .checkCancel } := by
  simp only [step, h]

theorem step_checkCancel (P : Params) (w : World) (fault : Bool) (c : Cfg)
    (h : c.pc = .checkCancel) :
    step P w fault c =
      if w.cancelled then
        if c.closing then c.note.finish .shutdown
        else { c with closing := true, sinceClosing := [], pc := .drain }
      else { c.note with pc := .sleep } := by
  simp only [step, h]

theorem step_sleep (P : Params) (w : World) (fault : Bool) (c : Cfg)
    (h : c.pc = .sleep) :
    step P w fault c =
      { c.note with pc := .drain } := by
  simp only [step, h]

/-! ## What `mirrorAvailableMessages` leaves unchanged -/

@[simp] theorem mirror_pc (P : Params) (w : World) (fault : Bool) (c : Cfg) :
    (c.mirror P w fault).pc = c.pc := by
  unfold Cfg.mirror; split <;> rfl

@[simp] theorem mirror_offset (P : Params) (w : World) (fault : Bool) (c : Cfg) :
    (c.mirror P w fault).offset = c.offset := by
  unfold Cfg.mirror; split <;> rfl

@[simp] theorem mirror_err (P : Params) (w : World) (fault : Bool) (c : Cfg) :
    (c.mirror P w fault).err = c.err := by
  unfold Cfg.mirror; split <;> rfl

@[simp] theorem mirror_fi (P : Params) (w : World) (fault : Bool) (c : Cfg) :
    (c.mirror P w fault).fi = c.fi := by
  unfold Cfg.mirror; split <;> rfl

@[simp] theorem mirror_newFI (P : Params) (w : World) (fault : Bool) (c : Cfg) :
    (c.mirror P w fault).newFI = c.newFI := by
  unfold Cfg.mirror; split <;> rfl

@[simp] theorem mirror_closing (P : Params) (w : World) (fault : Bool) (c : Cfg) :
    (c.mirror P w fault).closing = c.closing := by
  unfold Cfg.mirror; split <;> rfl

@[simp] theorem mirror_ret (P : Params) (w : World) (fault : Bool) (c : Cfg) :
    (c.mirror P w fault).ret = c.ret := by
  unfold Cfg.mirror; split <;> rfl

@[simp] theorem mirror_errorChannel (P : Params) (w : World) (fault : Bool) (c : Cfg) :
    (c.mirror P w fault).errorChannel = c.errorChannel := by
  unfold Cfg.mirror; split <;> rfl

@[simp] theorem mirror_wgAdds (P : Params) (w : World) (fault : Bool) (c : Cfg) :
    (c.mirror P w fault).wgAdds = c.wgAdds := by
  unfold Cfg.mirror; split <;> rfl

@[simp] theorem mirror_wgDones (P : Params) (w : World) (fault : Bool) (c : Cfg) :
    (c.mirror P w fault).wgDones = c.wgDones := by
  unfold Cfg.mirror; split <;> rfl

@[simp] theorem mirror_opens (P : Params) (w : World) (fault : Bool) (c : Cfg) :
    (c.mirror P w fault).opens = c.opens := by
  unfold Cfg.mirror; split <;> rfl

@[simp] theorem mirror_closes (P : Params) (w : World) (fault : Bool) (c : Cfg) :
    (c.mirror P w fault).closes = c.closes := by
  unfold Cfg.mirror; split <;> rfl

@[simp] theorem mirror_seekFailed (P : Params) (w : World) (fault : Bool) (c : Cfg) :
    (c.mirror P w fault).seekFailed = c.seekFailed := by
  unfold Cfg.mirror; split <;> rfl

@[simp] theorem mirror_sinceClosing (P : Params) (w : World) (fault : Bool) (c : Cfg) :
    (c.mirror P w fault).sinceClosing = c.sinceClosing := by
  unfold Cfg.mirror; split <;> rfl

@[simp] theorem mirror_drains (P : Params) (w : World) (fault : Bool) (c : Cfg) :
    (c.mirror P w fault).drains = c.drains + 1 := by
  unfold Cfg.mirror; split <;> rfl

/-! ## Every step of the machine is a transition of the relation -/

theorem step_sound (P : Params) (w : World) (fault : Bool) (c : Cfg) :
    Step P w fault c (step P w fault c) := by
  cases hpc : c.pc
  case setupFailed => rw [step_setupFailed _ _ _ _ hpc]; exact .stopped (.inl hpc)
  case blocked => rw [step_blocked _ _ _ _ hpc]; exact .stopped (.inr (.inl hpc))
  case done e => rw [step_done _ _ _ _ e hpc]; exact .stopped (.inr (.inr ⟨e, hpc⟩))
  case statPath =>
    rw [step_statPath _ _ _ _ hpc]
    cases hf : fault
    · cases hp : w.path
      · simp only [osStat, hp]; exact .statPathNone hpc rfl hp
      · simp only [osStat, hp]; exact .statPathSome _ hpc rfl hp
    · simp only [osStat]; exact .statPathFault hpc rfl
  case openFirst =>
    rw [step_openFirst _ _ _ _ hpc]
    cases hf : fault
    · cases hp : w.path
      · simp only [osOpenFile, hp]; exact .openFirstNone hpc rfl hp
      · simp only [osOpenFile, hp]; exact .openFirstSome _ hpc rfl hp
    · simp only [osOpenFile]; exact .openFirstFault hpc rfl
  case waitCheck s =>
    rw [step_waitCheck _ _ _ _ s hpc]
    cases hc : w.cancelled
    · simp only [Bool.false_eq_true, ↓reduceIte]; exact .waitCheckLive s hpc hc
    · simp only [↓reduceIte]; exact .waitCheckCancelled s hpc hc
  case waitCancelStat s =>
    rw [step_waitCancelStat _ _ _ _ s hpc]
    cases s
    · cases hf : fault
      · cases hp : w.path
        · simp only [osStat, hp, Cfg.afterWait]; exact .waitCancelStatFirstNone hpc rfl hp
        · simp only [osStat, hp, Cfg.afterWait]; exact .waitCancelStatFirstSome _ hpc rfl hp
      · simp only [osStat, Cfg.afterWait]; exact .waitCancelStatFirstFault hpc rfl
    · cases hf : fault
      · cases hp : w.path
        · simp only [osStat, hp, Cfg.afterWait]; exact .waitCancelStatLoopNone hpc rfl hp
        · rename_i id
          simp only [osStat, hp, Cfg.afterWait]
          cases hs : SameFile c.fi (some (w.info id))
          · simp only [Cfg.note, hs, Bool.false_eq_true, ↓reduceIte]
            exact .waitCancelStatLoopRotated _ hpc rfl hp hs
          · simp only [Cfg.note, hs, Bool.false_eq_true, ↓reduceIte]
            exact .waitCancelStatLoopSame _ hpc rfl hp hs
      · simp only [osStat, Cfg.afterWait]; exact .waitCancelStatLoopFault hpc rfl
  case waitStat s =>
    rw [step_waitStat _ _ _ _ s hpc]
    cases hf : fault
    · cases hp : w.path
      · simp only [osStat, hp]; exact .waitStatNone s hpc rfl hp
      · rename_i id
        simp only [osStat, hp]
        cases s
        · simp only [Cfg.afterWait]; exact .waitStatFirstSome _ hpc rfl hp
        · simp only [Cfg.afterWait]
          cases hs : SameFile c.fi (some (w.info id))
          · simp only [Cfg.note, hs, Bool.false_eq_true, ↓reduceIte]
            exact .waitStatLoopRotated _ hpc rfl hp hs
          · simp only [Cfg.note, hs, Bool.false_eq_true, ↓reduceIte]
            exact .waitStatLoopSame _ hpc rfl hp hs
    · simp only [osStat]
      cases s
      · simp only [Cfg.afterWait]; exact .waitStatFirstFault hpc rfl
      · simp only [Cfg.afterWait]; exact .waitStatLoopFault hpc rfl
  case waitSleep s => rw [step_waitSleep _ _ _ _ s hpc]; exact .waitSleep s hpc
  case openWaited =>
    rw [step_openWaited _ _ _ _ hpc]
    cases hf : fault
    · cases hp : w.path
      · simp only [osOpenFile, hp]; exact .openWaitedNone hpc rfl hp
      · simp only [osOpenFile, hp]; exact .openWaitedSome _ hpc rfl hp
    · simp only [osOpenFile]; exact .openWaitedFault hpc rfl
  case statHandle =>
    rw [step_statHandle _ _ _ _ hpc]
    cases hf : fault
    · by_cases hs : c.offset ≠ (0 : Int) ∧ P.fromStart = false
      · rw [if_neg Bool.false_ne_true, if_pos hs]; exact .statHandleSeek hpc rfl hs
      · rw [if_neg Bool.false_ne_true, if_neg hs]; exact .statHandleDrain hpc rfl hs
    · rw [if_pos rfl]; exact .statHandleFault hpc rfl
  case seek =>
    rw [step_seek _ _ _ _ hpc]
    cases hf : fault
    · simp only [Bool.false_eq_true, ↓reduceIte]; exact .seekDone hpc rfl
    · simp only [↓reduceIte]; exact .seekFault hpc rfl
  case drain => rw [step_drain _ _ _ _ hpc]; exact .drain hpc
  case drainOld => rw [step_drainOld _ _ _ _ hpc]; exact .drainOld hpc
  case closeOld => rw [step_closeOld _ _ _ _ hpc]; exact .closeOld hpc
  case reopen =>
    rw [step_reopen _ _ _ _ hpc]
    cases hf : fault
    · cases hp : w.path
      · simp only [osOpenFile, hp]; exact .reopenNone hpc rfl hp
      · simp only [osOpenFile, hp]; exact .reopenSome _ hpc rfl hp
    · simp only [osOpenFile]; exact .reopenFault hpc rfl
  case drainNew => rw [step_drainNew _ _ _ _ hpc]; exact .drainNew hpc
  case checkCancel =>
    rw [step_checkCancel _ _ _ _ hpc]
    cases hc : w.cancelled
    · simp only [Bool.false_eq_true, ↓reduceIte]; exact .checkCancelLive hpc hc
    · cases hcl : c.closing
      · simp only [Bool.false_eq_true, ↓reduceIte]; exact .checkCancelClosing hpc hc hcl
      · simp only [↓reduceIte]; exact .checkCancelShutdown hpc hc hcl
  case sleep => rw [step_sleep _ _ _ _ hpc]; exact .sleep hpc

/-! ## Invariants of all runs -/

theorem run_append (P : Params) (w : World) (c : Cfg) (t1 t2 : List Tick) :
    run P w c (t1 ++ t2) = run P (run P w c t1).1 (run P w c t1).2 t2 := by
  induction t1 generalizing w c with
  | nil => rfl
  | cons t ts ih => simp [run, ih]

theorem applyAll_invariant (I : World → Prop) (henv : ∀ w a, I w → I (w.apply a))
    (acts : List EnvAct) (w : World) (h : I w) : I (w.applyAll acts) := by
  induction acts generalizing w with
  | nil => exact h
  | cons a as ih => exact ih _ (henv w a h)

/-- A property of the world and the session that every action of the environment and
every transition preserve holds along every run. -/
theorem run_invariant (P : Params) (I : World → Cfg → Prop)
    (henv : ∀ w c a, I w c → I (w.apply a) c)
    (hstep : ∀ w fault c c', I w c → Step P w fault c c' → I w c')
    (ticks : List Tick) (w : World) (c : Cfg) (h : I w c) :
    I (run P w c ticks).1 (run P w c ticks).2 := by
  induction ticks generalizing w c with
  | nil => exact h
  | cons t ts ih =>
    have hw : I (w.applyAll t.acts) c :=
      applyAll_invariant (fun w => I w c) (fun w a => henv w c a) t.acts w h
    exact ih _ _ (hstep _ _ _ _ hw (step_sound P _ t.fault c))

theorem WgInv_step (P : Params) (w : World) (fault : Bool) (c c' : Cfg) (h : WgInv c)
    (hs : Step P w fault c c') : WgInv c' := by
  unfold WgInv at h
  cases hs <;> simp_all [WgInv, Cfg.launch, Cfg.send, Cfg.finish, Cfg.note] <;>
    split_ifs <;> simp_all

theorem WgInv_session (P : Params) (w : World) (ticks : List Tick) :
    WgInv (session P w ticks) :=
  run_invariant P (fun _ c => WgInv c) (fun _ _ _ h => h)
    (fun w fault c c' h hs => WgInv_step P w fault c c' h hs) ticks w Cfg.init
    (by simp [WgInv, Cfg.init])

theorem ChanInv_step (P : Params) (w : World) (fault : Bool) (c c' : Cfg) (h : ChanInv c)
    (hs : Step P w fault c c') : ChanInv c' := by
  unfold ChanInv at h
  cases hs <;>
    simp_all [ChanInv, Cfg.launch, Cfg.send, Cfg.finish, Cfg.note, errorChannelCap] <;>
    split_ifs <;> simp_all

theorem ChanInv_session (P : Params) (w : World) (ticks : List Tick) :
    ChanInv (session P w ticks) :=
  run_invariant P (fun _ c => ChanInv c) (fun _ _ _ h => h)
    (fun w fault c c' h hs => ChanInv_step P w fault c c' h hs) ticks w Cfg.init
    (by simp [ChanInv, Cfg.init])

theorem cancelled_apply (w : World) (a : EnvAct) (h : w.cancelled = true) :
    (w.apply a).cancelled = true := by
  cases a <;> simp [World.apply, h] <;> split <;> simp [h]

theorem ClosingInv_env (w : World) (c : Cfg) (a : EnvAct) (h : ClosingInv w c) :
    ClosingInv (w.apply a) c := by
  unfold ClosingInv at h ⊢
  split_ifs at h ⊢ with hc
  · exact ⟨cancelled_apply w a h.1, h.2⟩
  · exact h

theorem ClosingInv_step (P : Params) (w : World) (fault : Bool) (c c' : Cfg)
    (h : ClosingInv w c) (hs : Step P w fault c c') : ClosingInv w c' := by
  unfold ClosingInv at h
  by_cases hc : c.closing = true
  · rw [if_pos hc] at h
    obtain ⟨hw, h⟩ := h
    cases hs <;> (try cases ‹Site›) <;>
      simp_all [ClosingInv, Cfg.launch, Cfg.send, Cfg.finish, Cfg.note, finalPass,
        finalPassRotated] <;>
      (try split_ifs) <;> (try simp_all) <;>
      (try (rcases h with h | h <;> simp [h]))
  · rw [if_neg hc] at h
    cases hs <;> (try cases ‹Site›) <;>
      simp_all [ClosingInv, Cfg.launch, Cfg.send, Cfg.finish, Cfg.note, finalPass,
        finalPassRotated] <;>
      (try split_ifs) <;> (try simp_all)

theorem ClosingInv_run (P : Params) (w : World) (ticks : List Tick) :
    ClosingInv (run P w Cfg.init ticks).1 (session P w ticks) :=
  run_invariant P ClosingInv ClosingInv_env
    (fun w fault c c' h hs => ClosingInv_step P w fault c c' h hs) ticks w Cfg.init
    (by simp [ClosingInv, Cfg.init])

theorem StartInv_step (P : Params) (w0 w : World) (fault : Bool) (c c' : Cfg)
    (h : StartInv P w0 c) (hs : Step P w fault c c') : StartInv P w0 c' := by
  unfold StartInv at h
  cases hs <;> (try cases ‹Site›) <;>
    simp_all [StartInv, Cfg.launch, Cfg.send, Cfg.finish, Cfg.note] <;>
    (try split_ifs) <;> (try simp_all)
  case openFirstSome =>
    obtain ⟨⟨id, hp, hfi⟩, _⟩ := h
    simp [hfi, startOffset, hp, World.info]
  case openWaitedSome => simp [startOffset, h.2.2.2.2]
  case statHandleDrain ho =>
    obtain ⟨⟨id, hf⟩, _⟩ := h
    refine ⟨id, ?_⟩
    rw [hf]
    unfold startPos startOffset at *
    cases hp : w0.path <;> simp_all
    by_cases hfs : P.fromStart = true
    · simp [hfs]
    · simp only [hfs]
      simp
      by_contra h0
      exact hfs (ho (fun hnil => h0 (by simp [hnil])))
  case seekDone =>
    obtain ⟨⟨id, hf⟩, _⟩ := h
    refine ⟨id, _, hf, rfl, ?_⟩
    unfold startPos startOffset
    cases hp : w0.path <;> simp
  case checkCancelClosing => intro h0; omega
  case sleep => intro h0; omega

theorem StartInv_run (P : Params) (w0 : World) (fault : Bool) (ticks : List Tick) :
    StartInv P w0 (session P w0 (⟨[], fault⟩ :: ticks)) := by
  have h1 : StartInv P w0 (step P w0 fault Cfg.init) := by
    have hs := step_sound P w0 fault Cfg.init
    generalize step P w0 fault Cfg.init = c1 at hs
    cases hs <;> simp_all [StartInv, Cfg.launch, Cfg.init, World.info]
  exact run_invariant P (fun _ c => StartInv P w0 c) (fun _ _ _ h => h)
    (fun w fault c c' h hs => StartInv_step P w0 w fault c c' h hs) ticks _ _ h1

theorem HandleInv_step (P : Params) (w : World) (fault : Bool) (c c' : Cfg)
    (h : HandleInv c) (hs : Step P w fault c c') : HandleInv c' := by
  unfold HandleInv at h
  cases hs <;> (try cases ‹Site›) <;>
    simp_all [HandleInv, Cfg.launch, Cfg.send, Cfg.finish, Cfg.note] <;>
    (try split_ifs) <;> (try simp_all)

theorem HandleInv_session (P : Params) (w : World) (ticks : List Tick) :
    HandleInv (session P w ticks) :=
  run_invariant P (fun _ c => HandleInv c) (fun _ _ _ h => h)
    (fun w fault c c' h hs => HandleInv_step P w fault c c' h hs) ticks w Cfg.init
    (by simp [HandleInv, Cfg.init])

/-- In every run that ends through "Shutting down mirror", one more file has been opened
than closed: the handle of the session is left open. -/
theorem handle_open_at_shutdown (P : Params) (w : World) (ticks : List Tick)
    (h : (session P w ticks).pc = .done .shutdown) :
    (session P w ticks).opens = (session P w ticks).closes + 1 := by
  have hi := HandleInv_session P w ticks
  unfold HandleInv at hi
  rw [h] at hi
  exact hi

/-- In no run does the goroutine return through `if fi == nil`: `waitForFile` never
returns a nil `fi` with a nil `err`. -/
theorem return_of_nil_fi_unreachable (P : Params) (w : World) (ticks : List Tick) :
    (session P w ticks).pc ≠ .done .noFile := by
  have hi := HandleInv_session P w ticks
  unfold HandleInv at hi
  intro h
  rw [h] at hi
  exact hi

/-! ## The claims about the session -/

/-- C3 (the code at the failing input): the path does not exist when `mirrorLog` is called
and still does not when `waitForFile` sees the cancellation; the goroutine then sends the
"not exist" error of `os.Stat` on the error channel and returns through the error
path, not through `if fi == nil`. -/
theorem C3_cancel_while_absent_sends_error :
    (worldAfter World.absent cancelWhileAbsent).path = none
    ∧ (session tailParams World.absent cancelWhileAbsent).pc = .done .failed
    ∧ (session tailParams World.absent cancelWhileAbsent).errorChannel = [.notExist] := by
  decide

/-- C4 (the code at the failing input): the file exists, the session tails it, the context
is cancelled and the goroutine returns after its last pass; one file was opened and none
was closed. -/
theorem C4_handle_left_open_at_shutdown :
    (session tailParams World.oneLine tailThenCancel).pc = .done .shutdown
    ∧ (session tailParams World.oneLine tailThenCancel).opens = 1
    ∧ (session tailParams World.oneLine tailThenCancel).closes = 0 := by
  decide

/-- C9 (the code at the failing input): the path is rotated twice, the second time between
the `os.Stat` that detects the first rotation and the `os.OpenFile` that follows.  The
line `"b"` of the first file is dispatched once, the line `"c"` of the intermediate file is
lost, and the line `"d"` of the last file is dispatched twice. -/
theorem C9_last_file_dispatched_twice :
    (worldAfter World.oneLine rotateTwice).files = [[97, 10, 98, 10], [99, 10], [100, 10]]
    ∧ (session tailParams World.oneLine rotateTwice).dispatched
        = [([98], false), ([100], false), ([100], false)] := by
  decide

/-- C10 (the code at the failing input): on the stanza `"Name"`, a recognised key with no
`=` sign, the access `t[1]` is out of range and the call panics. -/
theorem C10_key_without_equals_panics :
    getQueueManagerFromStanza keyName = .error (.indexOutOfRange 1 1) := by
  rfl

/-- C5: at every point of every run of `mirrorLog`, whatever the environment does:
`wg.Add(1)` has been called once if `mirrorLog` has returned a nil immediate error and not
at all otherwise; the goroutine has been launched exactly when `mirrorLog` has returned a
nil immediate error; `wg.Done()` has been called once if the goroutine has returned
(whichever way) and not at all otherwise; and after a non-nil immediate error the session
stays at `setupFailed`, where no goroutine runs and the wait group is untouched. -/
theorem C5_wait_group (P : Params) (w : World) (ticks : List Tick) :
    (session P w ticks).wgAdds = (if (session P w ticks).ret = some none then 1 else 0)
    ∧ ((session P w ticks).pc.inTask = true ↔ (session P w ticks).ret = some none)
    ∧ (session P w ticks).wgDones = (if (session P w ticks).pc.isDone = true then 1 else 0)
    ∧ ((∃ e, (session P w ticks).ret = some (some e)) ↔
        (session P w ticks).pc = .setupFailed)
    ∧ ((session P w ticks).pc = .setupFailed →
        (session P w ticks).wgAdds = 0 ∧ (session P w ticks).wgDones = 0) := by
  have h := WgInv_session P w ticks
  generalize session P w ticks = c at h
  unfold WgInv at h
  cases hpc : c.pc <;> simp_all [PC.inTask, PC.isDone]
  obtain ⟨⟨e, he⟩, _⟩ := h
  simp [he]

/-- C5 at concrete runs: a run that ends by cancellation, a run that ends by a runtime
error (cancellation while the path does not exist), and a run whose setup fails. -/
theorem C5_wait_group_witness :
    ((session tailParams World.oneLine tailThenCancel).pc = .done .shutdown
      ∧ (session tailParams World.oneLine tailThenCancel).wgAdds = 1
      ∧ (session tailParams World.oneLine tailThenCancel).wgDones = 1)
    ∧ ((session tailParams World.absent cancelWhileAbsent).pc = .done .failed
      ∧ (session tailParams World.absent cancelWhileAbsent).wgAdds = 1
      ∧ (session tailParams World.absent cancelWhileAbsent).wgDones = 1)
    ∧ ((session tailParams World.oneLine [⟨[], true⟩, Tick.quiet]).pc = .setupFailed
      ∧ (session tailParams World.oneLine [⟨[], true⟩, Tick.quiet]).ret = some (some .stat)
      ∧ (session tailParams World.oneLine [⟨[], true⟩, Tick.quiet]).wgAdds = 0
      ∧ (session tailParams World.oneLine [⟨[], true⟩, Tick.quiet]).wgDones = 0) :=
  ⟨⟨by decide, by
      have h := (C5_wait_group tailParams World.oneLine tailThenCancel).1
      rw [h]; decide, by decide⟩,
    by decide, by decide⟩

/-- What holds of the error channel at every point of every run of `mirrorLog`, whatever
the environment does and even though nobody receives from the channel: the channel holds
at most one value; the goroutine is never blocked in a send; and the channel holds a value
exactly when the goroutine has returned through an error path. -/
theorem errorChannel_bounded (P : Params) (w : World) (ticks : List Tick) :
    (session P w ticks).errorChannel.length ≤ errorChannelCap
    ∧ (session P w ticks).pc ≠ .blocked
    ∧ ((session P w ticks).errorChannel ≠ [] ↔ (session P w ticks).pc = .done .failed) := by
  have h := ChanInv_session P w ticks
  generalize session P w ticks = c at h
  unfold ChanInv at h
  cases hpc : c.pc <;> simp_all [errorChannelCap]
  all_goals (rename_i e; cases e <;> simp_all)
  all_goals (obtain ⟨e, h1, h2⟩ := h; simp [h1])

/-- C6 (the code at the failing inputs): two runs in which no system call fails, the
context is cancelled, and a value is nevertheless written on the error channel.
* The path does not exist at the call and still does not when the context is cancelled:
  the `os.Stat` that `waitForFile` makes on cancellation finds no file, and the goroutine
  sends that outcome on the error channel.
* The session tails the file; the path is renamed away and the context is cancelled
  before a new file is created: in its last pass after the cancellation the goroutine
  sends the same outcome on the error channel. -/
theorem C6_error_sent_without_failure :
    (cancelWhileAbsent.all (fun t => !t.fault) = true
      ∧ (worldAfter World.absent cancelWhileAbsent).cancelled = true
      ∧ (session tailParams World.absent cancelWhileAbsent).ret = some none
      ∧ (session tailParams World.absent cancelWhileAbsent).errorChannel = [.notExist])
    ∧ (cancelWhileRenamed.all (fun t => !t.fault) = true
      ∧ (worldAfter World.oneLine cancelWhileRenamed).cancelled = true
      ∧ (session tailParams World.oneLine cancelWhileRenamed).ret = some none
      ∧ (session tailParams World.oneLine cancelWhileRenamed).closing = true
      ∧ (session tailParams World.oneLine cancelWhileRenamed).errorChannel = [.notExist]) := by
  decide

/-- C7: let `mirrorLog` be called in the world `w0` (its `os.Stat` sees `w0`), and let
the run, whatever the environment does afterwards, reach the head of the loop for the
first time, the seek not having failed.  Then nothing has been dispatched yet, and the
handle stands at `startPos w0 fromStart`: at the size the file had at the call when the
path existed and `fromStart` is false, at 0 when the path did not exist or `fromStart` is
true.  The first drain dispatches what the file holds from that position on. -/
theorem C7_start_offset (P : Params) (w0 : World) (fault : Bool) (ticks : List Tick)
    (hpc : (session P w0 (⟨[], fault⟩ :: ticks)).pc = .drain)
    (hfirst : (session P w0 (⟨[], fault⟩ :: ticks)).drains = 0)
    (hseek : (session P w0 (⟨[], fault⟩ :: ticks)).seekFailed = false) :
    ∃ id, (session P w0 (⟨[], fault⟩ :: ticks)).f = some ⟨id, startPos w0 P.fromStart⟩
      ∧ (session P w0 (⟨[], fault⟩ :: ticks)).dispatched = []
      ∧ ∀ w, (step P w false (session P w0 (⟨[], fault⟩ :: ticks))).dispatched
          = (mirrorAvailableMessages ((w.content id).drop (startPos w0 P.fromStart))
              P.mf P.isQMLog).calls := by
  have h := StartInv_run P w0 fault ticks
  generalize session P w0 (⟨[], fault⟩ :: ticks) = c at h hpc hfirst hseek
  unfold StartInv at h
  rw [hpc] at h
  obtain ⟨hd, hf⟩ := h hfirst
  obtain ⟨id, hf⟩ := hf hseek
  refine ⟨id, hf, hd, fun w => ?_⟩
  rw [step_drain P w false c hpc]
  simp [Cfg.mirror, Cfg.note, hf, hd, mirrorOut]

/-- C7 at concrete runs: the file holds 2 bytes at the call and `fromStart` is false, so
the first drain begins at position 2; with `fromStart` true it begins at 0; and when the
path does not exist at the call and the file appears later, it begins at 0. -/
theorem C7_start_offset_witness :
    (∃ id, (session tailParams World.oneLine (⟨[], false⟩ :: List.replicate 3 Tick.quiet)).f
          = some ⟨id, startPos World.oneLine tailParams.fromStart⟩
      ∧ (session tailParams World.oneLine (⟨[], false⟩ :: List.replicate 3 Tick.quiet)).dispatched
          = []
      ∧ ∀ w, (step tailParams w false
            (session tailParams World.oneLine (⟨[], false⟩ :: List.replicate 3 Tick.quiet))).dispatched
          = (mirrorAvailableMessages
              ((w.content id).drop (startPos World.oneLine tailParams.fromStart))
              tailParams.mf tailParams.isQMLog).calls)
    ∧ startPos World.oneLine false = 2
    ∧ startPos World.oneLine true = 0
    ∧ startPos World.absent false = 0 :=
  ⟨C7_start_offset tailParams World.oneLine false (List.replicate 3 Tick.quiet)
    (by decide) (by decide) (by decide), by decide, by decide, by decide⟩

/-- C8: at every point of every run of `mirrorLog`, whatever the environment does:
* while `closing` is not set, no control point has been noted and the goroutine has not
  returned through "Shutting down mirror";
* when the cancellation check of the loop sees the context cancelled and `closing` is not
  set, it sets `closing` and goes to the head of the loop, without sleeping;
* once `closing` is set, the control points passed since are the beginning of exactly one
  pass through the loop (`finalPass`, or `finalPassRotated` when a rotation is seen): one
  drain at the head of the loop, `waitForFile` without a sleep, the rotation check, and the
  cancellation check;
* when the goroutine has returned through "Shutting down mirror", that pass has run in
  full;
* at the cancellation check with `closing` set, the next step returns. -/
theorem C8_one_pass_after_cancel (P : Params) (w : World) (ticks : List Tick) :
    ((session P w ticks).closing = false →
        (session P w ticks).sinceClosing = [] ∧ (session P w ticks).pc ≠ .done .shutdown)
    ∧ ((session P w ticks).pc = .checkCancel → (session P w ticks).closing = false →
        ∀ fault w', w'.cancelled = true →
          (step P w' fault (session P w ticks)).closing = true
          ∧ (step P w' fault (session P w ticks)).pc = .drain
          ∧ (step P w' fault (session P w ticks)).sinceClosing = [])
    ∧ ((session P w ticks).closing = true →
        (session P w ticks).sinceClosing <+: finalPass
        ∨ (session P w ticks).sinceClosing <+: finalPassRotated)
    ∧ ((session P w ticks).pc = .done .shutdown →
        (session P w ticks).sinceClosing = finalPass
        ∨ (session P w ticks).sinceClosing = finalPassRotated)
    ∧ ((session P w ticks).pc = .checkCancel → (session P w ticks).closing = true →
        ∀ fault acts,
          (step P ((run P w Cfg.init ticks).1.applyAll acts) fault (session P w ticks)).pc
            = .done .shutdown) := by
  have h := ClosingInv_run P w ticks
  generalize session P w ticks = c at h
  generalize (run P w Cfg.init ticks).1 = w1 at h
  unfold ClosingInv at h
  refine ⟨?_, ?_, ?_, ?_, ?_⟩
  · intro hc
    simpa [hc] using h
  · intro hpc hc fault w' hw'
    rw [step_checkCancel P w' fault c hpc]
    simp [hw', hc]
  · intro hc
    rw [if_pos hc] at h
    obtain ⟨_, h⟩ := h
    cases hpc : c.pc <;> rw [hpc] at h <;> (try cases ‹Site›) <;> (try cases ‹Exit›) <;>
      simp only [] at h <;> (try exact absurd h id) <;>
      (try (rcases h with h | h)) <;> simp only [h] <;> decide
  · intro hpc
    by_cases hc : c.closing = true
    · rw [if_pos hc, hpc] at h
      exact h.2
    · rw [if_neg hc] at h
      exact absurd hpc h.2
  · intro hpc hc fault acts
    rw [if_pos hc] at h
    have hw : (w1.applyAll acts).cancelled = true :=
      applyAll_invariant (fun w => w.cancelled = true) cancelled_apply acts w1 h.1
    rw [step_checkCancel P _ fault c hpc]
    simp [hw, hc, Cfg.finish, Cfg.note]

/-- C8 at a concrete run: the file is tailed, the context is cancelled, and the goroutine
returns after exactly one more pass. -/
theorem C8_one_pass_after_cancel_witness :
    (session tailParams World.oneLine tailThenCancel).pc = .done .shutdown
    ∧ (session tailParams World.oneLine tailThenCancel).closing = true
    ∧ ((session tailParams World.oneLine tailThenCancel).sinceClosing = finalPass
        ∨ (session tailParams World.oneLine tailThenCancel).sinceClosing = finalPassRotated) :=
  ⟨by decide, by decide,
    (C8_one_pass_after_cancel tailParams World.oneLine tailThenCancel).2.2.2.1 (by decide)⟩

/-! ## Contents made of complete lines -/

theorem joinLines_append (a b : List (List Nat)) :
    joinLines (a ++ b) = joinLines a ++ joinLines b := by
  induction a with
  | nil => rfl
  | cons l ls ih => simp [joinLines, ih]

theorem closed_nil : Closed [] := ⟨[], by simp, rfl⟩

theorem closed_append (x y : List Nat) (hx : Closed x) (hy : Closed y) : Closed (x ++ y) := by
  obtain ⟨lx, hlx, rfl⟩ := hx
  obtain ⟨ly, hly, rfl⟩ := hy
  refine ⟨lx ++ ly, ?_, (joinLines_append lx ly).symm⟩
  intro l hl
  rcases List.mem_append.mp hl with h | h
  · exact hlx l h
  · exact hly l h

theorem closed_of_isLine (bytes : List Nat) (h : isLine bytes = true) : Closed bytes := by
  simp only [isLine, Bool.and_eq_true, decide_eq_true_eq, Bool.not_eq_true',
    List.contains_eq_any_beq, List.any_eq_false, beq_iff_eq] at h
  obtain ⟨⟨hlast, hno⟩, hlen⟩ := h
  have hne : bytes ≠ [] := by intro e; simp [e] at hlast
  have hsplit : bytes = bytes.dropLast ++ [10] := by
    have := List.dropLast_append_getLast? 10 (by simpa using hlast)
    exact this.symm
  refine ⟨[bytes.dropLast], ?_, ?_⟩
  · intro l hl
    simp only [List.mem_singleton] at hl
    subst hl
    refine ⟨fun hm => ?_, ?_⟩
    · exact hno 10 hm rfl
    · have : bytes.length = bytes.dropLast.length + 1 := by
        conv_lhs => rw [hsplit]
        simp
      omega
  · simpa [joinLines] using hsplit

theorem scanAll_joinLines (ls : List (List Nat))
    (hls : ∀ l ∈ ls, 10 ∉ l ∧ l.length < MaxScanTokenSize) :
    scanAll (joinLines ls) = ⟨ls.map dropCR, (joinLines ls).length, false⟩ := by
  have h := scanLoop_lines MaxScanTokenSize ls [] hls (by simp [MaxScanTokenSize])
    ((joinLines ls ++ []).length + 1) (by omega)
  simpa [scanAll] using h

theorem mirror_calls_closed (P : Params) (x : List Nat) (hx : Closed x) :
    (mirrorAvailableMessages x P.mf P.isQMLog).calls = linesOf P x
    ∧ (mirrorAvailableMessages x P.mf P.isQMLog).read = x.length := by
  obtain ⟨ls, hls, rfl⟩ := hx
  have hc := completeLines_joinLines ls (fun l hl => (hls l hl).1)
  simp [mirrorAvailableMessages, scanAll_joinLines ls hls, linesOf, hc]

theorem completeLines_joinLines_append (ls : List (List Nat)) (y : List Nat)
    (h : ∀ l ∈ ls, 10 ∉ l) :
    completeLines (joinLines ls ++ y) = ls ++ completeLines y := by
  induction ls with
  | nil => rfl
  | cons l ls ih =>
    have hl := h l (by simp)
    have := ih (fun l' h' => h l' (by simp [h']))
    simp only [completeLines] at this ⊢
    simp [joinLines, completeLinesAux_line _ l _ hl, this]

theorem linesOf_append (P : Params) (x y : List Nat) (hx : Closed x) :
    linesOf P (x ++ y) = linesOf P x ++ linesOf P y := by
  obtain ⟨ls, hls, rfl⟩ := hx
  have h1 := completeLines_joinLines_append ls y (fun l hl => (hls l hl).1)
  have h2 := completeLines_joinLines ls (fun l hl => (hls l hl).1)
  simp [linesOf, h1, h2]

theorem linesOf_nil (P : Params) : linesOf P [] = [] := rfl

/-! ## The world under the actions of the environment -/

theorem content_write_same (w : World) (id : FileId) (bytes : List Nat)
    (hp : w.path = some id) (hlt : id < w.files.length) :
    (w.apply (.write bytes)).content id = w.content id ++ bytes := by
  simp [World.apply, hp, World.content, List.getD_eq_getElem?_getD, hlt]

theorem content_write_other (w : World) (id j : FileId) (bytes : List Nat)
    (hp : w.path = some id) (hne : j ≠ id) :
    (w.apply (.write bytes)).content j = w.content j := by
  simp [World.apply, hp, World.content, List.getD_eq_getElem?_getD,
    List.getElem?_set_ne (Ne.symm hne)]

theorem write_frame (w : World) (bytes : List Nat) :
    (w.apply (.write bytes)).path = w.path
    ∧ (w.apply (.write bytes)).cancelled = w.cancelled
    ∧ (w.apply (.write bytes)).files.length = w.files.length := by
  simp only [World.apply]
  cases hp : w.path <;> simp [hp]

theorem content_create (w : World) (j : FileId) (hp : w.path = none) :
    (w.apply .create).content j = w.content j := by
  by_cases hj : j < w.files.length
  · simp [World.apply, hp, World.content, List.getD_eq_getElem?_getD,
      List.getElem?_append_left hj]
  · have hj' : w.files.length ≤ j := Nat.le_of_not_lt hj
    simp only [World.apply, hp, World.content, List.getD_eq_getElem?_getD]
    rw [List.getElem?_append_right hj', List.getElem?_eq_none hj']
    cases hk : j - w.files.length <;> simp

theorem create_frame (w : World) (hp : w.path = none) :
    (w.apply .create).path = some w.files.length
    ∧ (w.apply .create).cancelled = w.cancelled
    ∧ (w.apply .create).files.length = w.files.length + 1 := by
  simp [World.apply, hp]

/-! ## The invariant of runs with at most one rotation: the environment -/

theorem Tail0_grow (P : Params) (w0 w w' : World) (c : Cfg) (xa : List Nat)
    (hA : w'.content 0 = w.content 0 ++ xa) (hxa : Closed xa) (h : Tail0 P w0 w c) :
    Tail0 P w0 w' c := by
  obtain ⟨h1, h2, h3, h4, h5, h6, h7⟩ := h
  refine ⟨h1, h2, h3, ?_, ?_, ?_, ?_⟩
  · rw [hA, List.length_append]; omega
  · rw [hA, List.take_append_of_le_length h4]; exact h5
  · rw [hA, List.drop_append_of_le_length h4]; exact closed_append _ _ h6 hxa
  · rw [hA, List.take_append_of_le_length h4]; exact h7

theorem Tail1_grow (P : Params) (w0 w w' : World) (c : Cfg) (xb : List Nat)
    (hA : w'.content 0 = w.content 0) (hB : w'.content 1 = w.content 1 ++ xb)
    (hxb : Closed xb) (hlen : w'.files.length = w.files.length) (h : Tail1 P w0 w c) :
    Tail1 P w0 w' c := by
  obtain ⟨h1, h2, h3, h4, h5, h6, h7⟩ := h
  refine ⟨h1, h2, by omega, ?_, ?_, ?_, ?_⟩
  · rw [hB, List.length_append]; omega
  · rw [hB, List.take_append_of_le_length h4]; exact h5
  · rw [hB, List.drop_append_of_le_length h4]; exact closed_append _ _ h6 hxb
  · rw [hA, hB, List.take_append_of_le_length h4]; exact h7

theorem Region_grow (P : Params) (w0 w w' : World) (xa xb : List Nat)
    (hA : w'.content 0 = w.content 0 ++ xa) (hB : w'.content 1 = w.content 1 ++ xb)
    (hxa : Closed xa) (hxb : Closed xb) (h : Region P w0 w) : Region P w0 w' := by
  obtain ⟨h1, h2, h3⟩ := h
  refine ⟨?_, ?_, ?_⟩
  · rw [hA, List.length_append]; omega
  · rw [hA, List.drop_append_of_le_length h1]; exact closed_append _ _ h2 hxa
  · rw [hB]; exact closed_append _ _ h3 hxb

/-- The local invariant is kept when complete lines are appended to the file the path
names, the context not being cancelled. -/
theorem Local_grow (P : Params) (w0 w w' : World) (c : Cfg) (xa xb : List Nat)
    (hA : w'.content 0 = w.content 0 ++ xa) (hB : w'.content 1 = w.content 1 ++ xb)
    (hxa : Closed xa) (hxb : Closed xb) (hfrozen : w.files.length = 2 → xa = [])
    (hpath : w'.path = w.path) (hlen : w'.files.length = w.files.length)
    (hcl : c.closing = false) (hcan : w.cancelled = false)
    (h : Local P w0 w c) : Local P w0 w' c := by
  have t0 : Tail0 P w0 w c → Tail0 P w0 w' c := Tail0_grow P w0 w w' c xa hA hxa
  have t1 : Tail1 P w0 w c → Tail1 P w0 w' c := by
    intro h1
    have hx := hfrozen h1.2.2.1
    subst hx
    exact Tail1_grow P w0 w w' c xb (by simpa using hA) hB hxb hlen h1
  have t : Tail0 P w0 w c ∨ Tail1 P w0 w c → Tail0 P w0 w' c ∨ Tail1 P w0 w' c :=
    fun h => h.elim (fun h => .inl (t0 h)) (fun h => .inr (t1 h))
  have u : Unopened w c → Unopened w' c := by
    intro ⟨h1, h2, h3, h4, h5⟩
    exact ⟨h1, h2, h3, by omega, by rw [hpath, hlen]; exact h5⟩
  unfold Local at h ⊢
  cases hpc : c.pc <;> (try cases ‹Site›) <;> (try cases ‹Exit›) <;> rw [hpc] at h <;>
    simp only [] at h ⊢ <;> (try exact h)
  case openFirst => exact ⟨u h.1, h.2.1, h.2.2.1, hpath ▸ h.2.2.2⟩
  case waitCheck.first => exact ⟨u h.1, h.2⟩
  case waitStat.first => exact ⟨u h.1, h.2⟩
  case waitCancelStat.first => exact absurd h.2.2.2 (by simp [hcan])
  case waitSleep.first => exact ⟨u h.1, h.2⟩
  case openWaited => exact ⟨u h.1, h.2.1, h.2.2.1, hpath ▸ h.2.2.2⟩
  case waitCheck.loop => exact ⟨t h.1, fun hc => absurd hc (by simp [hcl])⟩
  case waitStat.loop => exact ⟨t h.1, h.2⟩
  case waitCancelStat.loop => exact absurd h.2.2 (by simp [hcan])
  case waitSleep.loop => exact ⟨t h.1, h.2⟩
  case drain => exact t h
  case drainOld => exact ⟨t0 h.1, by omega, h.2.2⟩
  case closeOld =>
    have hx := hfrozen h.2.1
    subst hx
    exact ⟨t0 h.1, by omega, h.2.2.1, by rw [hA]; simpa using h.2.2.2⟩
  case reopen =>
    have hx := hfrozen h.2.1
    subst hx
    exact ⟨t0 h.1, by omega, h.2.2.1, by rw [hA]; simpa using h.2.2.2⟩
  case drainNew => exact t1 h
  case checkCancel => exact ⟨t h.1, fun hc => absurd hc (by simp [hcl])⟩
  case sleep => exact ⟨t h.1, h.2⟩
  case done.shutdown => exact absurd h.1 (by simp [hcan])

theorem Shape_ids (w : World) (id : FileId) (h : Shape w) (hp : w.path = some id) :
    (id = 0 ∧ w.files.length = 1) ∨ (id = 1 ∧ w.files.length = 2) := by
  obtain ⟨h1 | h1 | h1, _⟩ := h
  · rw [hp] at h1; exact absurd h1.1 (by simp)
  · left; rw [hp] at h1; exact ⟨Option.some.inj h1.1, h1.2⟩
  · right; rw [hp] at h1; exact ⟨Option.some.inj h1.1, h1.2⟩

theorem Inv2_write (P : Params) (w0 w : World) (c : Cfg) (bytes : List Nat)
    (hok : envOK c w (.write bytes) = true) (h : Inv2 P w0 w c) :
    Inv2 P w0 (w.apply (.write bytes)) c := by
  obtain ⟨hS, hR, hE, hC, hL⟩ := h
  simp only [envOK, Bool.and_eq_true, Bool.not_eq_true', Option.isSome_iff_exists] at hok
  obtain ⟨⟨hcan, ⟨id, hp⟩⟩, hline⟩ := hok
  have hbytes := closed_of_isLine bytes hline
  have hcl : c.closing = false := by
    cases hc : c.closing
    · rfl
    · rw [hC hc] at hcan; exact absurd hcan (by simp)
  obtain ⟨hp', hcan', hlen'⟩ := write_frame w bytes
  have hS' : Shape (w.apply (.write bytes)) := by
    unfold Shape
    rw [hp', hcan', hlen']
    exact hS
  rcases Shape_ids w id hS hp with ⟨rfl, hl⟩ | ⟨rfl, hl⟩
  · have hA := content_write_same w 0 bytes hp (by rw [hl]; decide)
    have hB : (w.apply (.write bytes)).content 1 = w.content 1 ++ [] := by
      rw [content_write_other w 0 1 bytes hp (by decide)]; simp
    exact ⟨hS', Region_grow P w0 w _ bytes [] hA hB hbytes closed_nil hR, hE,
      fun hc => absurd hc (by simp [hcl]),
      Local_grow P w0 w _ c bytes [] hA hB hbytes closed_nil (fun h2 => by omega) hp' hlen'
        hcl hcan hL⟩
  · have hB := content_write_same w 1 bytes hp (by rw [hl]; decide)
    have hA : (w.apply (.write bytes)).content 0 = w.content 0 ++ [] := by
      rw [content_write_other w 1 0 bytes hp (by decide)]; simp
    exact ⟨hS', Region_grow P w0 w _ [] bytes hA hB closed_nil hbytes hR, hE,
      fun hc => absurd hc (by simp [hcl]),
      Local_grow P w0 w _ c [] bytes hA hB closed_nil hbytes (fun _ => rfl) hp' hlen'
        hcl hcan hL⟩

theorem Inv2_rename (P : Params) (w0 w : World) (c : Cfg)
    (hok : envOK c w .rename = true) (h : Inv2 P w0 w c) :
    Inv2 P w0 (w.apply .rename) c := by
  obtain ⟨hS, hR, hE, hC, hL⟩ := h
  simp only [envOK, Bool.and_eq_true, Bool.not_eq_true', decide_eq_true_eq] at hok
  obtain ⟨⟨⟨hcan, hf⟩, hp⟩, hlen⟩ := hok
  have hcl : c.closing = false := by
    cases hc : c.closing
    · rfl
    · rw [hC hc] at hcan; exact absurd hcan (by simp)
  have hfn : c.f ≠ none := by
    intro e; rw [e] at hf; exact absurd hf (by simp)
  refine ⟨⟨.inl ⟨rfl, by show w.files.length ≤ 1; omega⟩, fun hc => ?_⟩, hR, hE,
    fun hc => absurd hc (by simp [hcl]), ?_⟩
  · exact absurd (show w.cancelled = true from hc) (by simp [hcan])
  · unfold Local at hL ⊢
    cases hpc : c.pc <;> (try cases ‹Site›) <;> (try cases ‹Exit›) <;> rw [hpc] at hL <;>
      simp only [] at hL ⊢ <;> (try exact hL) <;> (try exact absurd hL.1.1 hfn)
    case checkCancel => exact ⟨hL.1, fun hc => absurd hc (by simp [hcl])⟩

theorem Inv2_cancel (P : Params) (w0 w : World) (c : Cfg)
    (hok : envOK c w .cancel = true) (h : Inv2 P w0 w c) :
    Inv2 P w0 (w.apply .cancel) c := by
  obtain ⟨hS, hR, hE, hC, hL⟩ := h
  simp only [envOK, Option.isSome_iff_exists] at hok
  obtain ⟨id, hp⟩ := hok
  refine ⟨⟨hS.1, fun _ => ?_⟩, hR, hE, fun _ => rfl, ?_⟩
  · show w.path ≠ none
    rw [hp]; simp
  · unfold Local at hL ⊢
    cases hpc : c.pc <;> (try cases ‹Site›) <;> (try cases ‹Exit›) <;> rw [hpc] at hL <;>
      simp only [] at hL ⊢ <;> (try exact hL)
    case waitCancelStat.first => exact ⟨hL.1, hL.2.1, hL.2.2.1, rfl⟩
    case waitCancelStat.loop => exact ⟨hL.1, hL.2.1, rfl⟩
    case done.shutdown => exact ⟨rfl, hL.2⟩

theorem Inv2_create (P : Params) (w0 w : World) (c : Cfg)
    (hok : envOK c w .create = true) (h : Inv2 P w0 w c) :
    Inv2 P w0 (w.apply .create) c := by
  obtain ⟨hS, hR, hE, hC, hL⟩ := h
  simp only [envOK, Bool.and_eq_true, Bool.not_eq_true', Option.isNone_iff_eq_none] at hok
  obtain ⟨hcan, hp⟩ := hok
  have hcl : c.closing = false := by
    cases hc : c.closing
    · rfl
    · rw [hC hc] at hcan; exact absurd hcan (by simp)
  obtain ⟨hp', hcan', hlen'⟩ := create_frame w hp
  have hA : (w.apply .create).content 0 = w.content 0 ++ [] := by
    rw [content_create w 0 hp]; simp
  have hB : (w.apply .create).content 1 = w.content 1 ++ [] := by
    rw [content_create w 1 hp]; simp
  have hlen : w.files.length ≤ 1 := by
    obtain ⟨h1 | h1 | h1, _⟩ := hS
    · exact h1.2
    · rw [hp] at h1; exact absurd h1.1 (by simp)
    · rw [hp] at h1; exact absurd h1.1 (by simp)
  have t0 : Tail0 P w0 w c → Tail0 P w0 (w.apply .create) c :=
    Tail0_grow P w0 w _ c [] hA closed_nil
  have u : Unopened w c → Unopened (w.apply .create) c := by
    intro ⟨h1, h2, h3, h4, h5⟩
    have := h5 hp
    exact ⟨h1, h2, h3, by omega, by rw [hp']; simp⟩
  have t : Tail0 P w0 w c ∨ Tail1 P w0 w c →
      Tail0 P w0 (w.apply .create) c ∨ Tail1 P w0 (w.apply .create) c := by
    intro h
    rcases h with h | h
    · exact .inl (t0 h)
    · have := h.2.2.1; omega
  refine ⟨⟨?_, fun hc => ?_⟩, Region_grow P w0 w _ [] [] hA hB closed_nil closed_nil hR, hE,
    fun hc => absurd hc (by simp [hcl]), ?_⟩
  · rw [hp', hlen']
    rcases Nat.lt_or_ge w.files.length 1 with h0 | h1
    · have : w.files.length = 0 := by omega
      right; left; rw [this]; simp
    · have : w.files.length = 1 := by omega
      right; right; rw [this]; exact ⟨rfl, rfl⟩
  · rw [hp']; simp
  · unfold Local at hL ⊢
    cases hpc : c.pc <;> (try cases ‹Site›) <;> (try cases ‹Exit›) <;> rw [hpc] at hL <;>
      simp only [] at hL ⊢ <;> (try exact hL)
    case openFirst => rw [hp] at hL; exact absurd hL.2.2.2 (by simp)
    case waitCheck.first => exact ⟨u hL.1, hL.2⟩
    case waitStat.first => exact ⟨u hL.1, hL.2⟩
    case waitCancelStat.first => exact absurd hL.2.2.2 (by simp [hcan])
    case waitSleep.first => exact ⟨u hL.1, hL.2⟩
    case openWaited => rw [hp] at hL; exact absurd hL.2.2.2 (by simp)
    case waitCheck.loop => exact ⟨t hL.1, fun hc => absurd hc (by simp [hcl])⟩
    case waitStat.loop => exact ⟨t hL.1, hL.2⟩
    case waitCancelStat.loop => exact absurd hL.2.2 (by simp [hcan])
    case waitSleep.loop => exact ⟨t hL.1, hL.2⟩
    case drain => exact t hL
    case drainOld => have := hL.2.1; omega
    case closeOld => have := hL.2.1; omega
    case reopen => have := hL.2.1; omega
    case drainNew => have := hL.2.2.1; omega
    case checkCancel => exact ⟨t hL.1, fun hc => absurd hc (by simp [hcl])⟩
    case sleep => exact ⟨t hL.1, hL.2⟩
    case done.shutdown => exact absurd hL.1 (by simp [hcan])

/-- The invariant is kept by every action that `envOK` allows. -/
theorem Inv2_env (P : Params) (w0 w : World) (c : Cfg) (a : EnvAct)
    (hok : envOK c w a = true) (h : Inv2 P w0 w c) : Inv2 P w0 (w.apply a) c := by
  cases a with
  | write bytes => exact Inv2_write P w0 w c bytes hok h
  | rename => exact Inv2_rename P w0 w c hok h
  | create => exact Inv2_create P w0 w c hok h
  | cancel => exact Inv2_cancel P w0 w c hok h

theorem Inv2_acts (P : Params) (w0 : World) (c : Cfg) (acts : List EnvAct) (w : World)
    (hok : validActs c w acts = true) (h : Inv2 P w0 w c) :
    Inv2 P w0 (w.applyAll acts) c := by
  induction acts generalizing w with
  | nil => exact h
  | cons a as ih =>
    simp only [validActs, Bool.and_eq_true] at hok
    exact ih _ hok.2 (Inv2_env P w0 w c a hok.1 h)

/-! ## The invariant of runs with at most one rotation: the steps -/

theorem mirror_closed (P : Params) (w : World) (c : Cfg) (k : FileId) (p : Nat)
    (hf : c.f = some ⟨k, p⟩) (hp : p ≤ (w.content k).length)
    (hc : Closed ((w.content k).drop p)) :
    (c.mirror P w false).f = some ⟨k, (w.content k).length⟩
    ∧ (c.mirror P w false).dispatched = c.dispatched ++ linesOf P ((w.content k).drop p) := by
  obtain ⟨h1, h2⟩ := mirror_calls_closed P _ hc
  simp only [Cfg.mirror, hf, mirrorOut, Bool.false_eq_true, ↓reduceIte, h1, h2,
    List.length_drop]
  refine ⟨?_, trivial⟩
  congr 2
  omega

theorem file_pos (c : Cfg) (k : FileId) (h : c.file = some k) : c.f = some ⟨k, c.pos⟩ := by
  unfold Cfg.file at h
  unfold Cfg.pos
  cases hf : c.f with
  | none => rw [hf] at h; exact absurd h (by simp)
  | some hd =>
    rw [hf] at h
    simp only [Option.map_some', Option.some.injEq] at h
    cases hd
    simp_all

theorem Tail0_congr (P : Params) (w0 w : World) (c c' : Cfg) (hf : c'.f = c.f)
    (hfi : c'.fi = c.fi) (hd : c'.dispatched = c.dispatched) (h : Tail0 P w0 w c) :
    Tail0 P w0 w c' := by
  unfold Tail0 Cfg.file Cfg.fiFile Cfg.pos at *
  rw [hf, hfi, hd]
  exact h

theorem Tail1_congr (P : Params) (w0 w : World) (c c' : Cfg) (hf : c'.f = c.f)
    (hfi : c'.fi = c.fi) (hd : c'.dispatched = c.dispatched) (h : Tail1 P w0 w c) :
    Tail1 P w0 w c' := by
  unfold Tail1 Cfg.file Cfg.fiFile Cfg.pos at *
  rw [hf, hfi, hd]
  exact h

theorem drop_take_append_drop (x : List Nat) (s p : Nat) (hs : s ≤ p) (hp : p ≤ x.length) :
    (x.take p).drop s ++ x.drop p = x.drop s := by
  conv_rhs => rw [← List.take_append_drop p x]
  rw [List.drop_append_of_le_length (by rw [List.length_take]; omega)]

/-- A drain of the first file: the session has dispatched the file from the start position
to its end, and the handle stands at the end. -/
theorem Tail0_mirror (P : Params) (w0 w : World) (c : Cfg) (h : Tail0 P w0 w c) :
    Tail0 P w0 w (c.mirror P w false)
    ∧ (c.mirror P w false).file = some 0
    ∧ (c.mirror P w false).pos = (w.content 0).length := by
  obtain ⟨h1, h2, h3, h4, h5, h6, h7⟩ := h
  obtain ⟨hf, hd⟩ := mirror_closed P w c 0 c.pos (file_pos c 0 h1) h4 h6
  have hpos : (c.mirror P w false).pos = (w.content 0).length := by
    simp [Cfg.pos, hf]
  have hfile : (c.mirror P w false).file = some 0 := by
    simp [Cfg.file, hf]
  refine ⟨⟨hfile, ?_, ?_, ?_, ?_, ?_, ?_⟩, hfile, hpos⟩
  · simpa [Cfg.fiFile] using h2
  · rw [hpos]; omega
  · rw [hpos]
  · rw [hpos, List.take_length, ← drop_take_append_drop _ _ _ h3 h4]
    exact closed_append _ _ h5 h6
  · rw [hpos, List.drop_length]; exact closed_nil
  · rw [hpos, List.take_length, hd, h7, ← linesOf_append P _ _ h5,
      drop_take_append_drop _ _ _ h3 h4]

/-- A drain of the second file. -/
theorem Tail1_mirror (P : Params) (w0 w : World) (c : Cfg) (h : Tail1 P w0 w c) :
    Tail1 P w0 w (c.mirror P w false)
    ∧ (c.mirror P w false).file = some 1
    ∧ (c.mirror P w false).pos = (w.content 1).length := by
  obtain ⟨h1, h2, h3, h4, h5, h6, h7⟩ := h
  obtain ⟨hf, hd⟩ := mirror_closed P w c 1 c.pos (file_pos c 1 h1) h4 h6
  have hpos : (c.mirror P w false).pos = (w.content 1).length := by
    simp [Cfg.pos, hf]
  have hfile : (c.mirror P w false).file = some 1 := by
    simp [Cfg.file, hf]
  refine ⟨⟨hfile, ?_, h3, ?_, ?_, ?_, ?_⟩, hfile, hpos⟩
  · simpa [Cfg.fiFile] using h2
  · rw [hpos]
  · rw [hpos, List.take_length]
    have := closed_append _ _ h5 h6
    rwa [List.take_append_drop] at this
  · rw [hpos, List.drop_length]; exact closed_nil
  · rw [hpos, List.take_length, hd, h7, List.append_assoc, ← linesOf_append P _ _ h5,
      List.take_append_drop]

theorem sameFile_true (c : Cfg) (i : FileInfo) (h : SameFile c.fi (some i) = true) :
    c.fiFile = some i.file := by
  unfold Cfg.fiFile
  cases hfi : c.fi with
  | none => rw [hfi] at h; simp [SameFile] at h
  | some j => rw [hfi] at h; simpa [SameFile] using h

theorem sameFile_false (c : Cfg) (i : FileInfo) (k : FileId) (hk : c.fiFile = some k)
    (h : SameFile c.fi (some i) = false) : k ≠ i.file := by
  unfold Cfg.fiFile at hk
  cases hfi : c.fi with
  | none => rw [hfi] at hk; simp at hk
  | some j =>
    rw [hfi] at h hk
    simp only [Option.map_some', Option.some.injEq] at hk
    simp only [SameFile, beq_eq_false_iff_ne, ne_eq] at h
    rw [← hk]
    exact h

theorem startPos_eq (w0 : World) (fromStart : Bool) :
    startPos w0 fromStart = if fromStart then 0 else startOffset w0 := by
  unfold startPos startOffset
  cases w0.path <;> cases fromStart <;> simp

theorem content_one_of_length (w : World) (h : w.files.length = 1) : w.content 1 = [] := by
  simp [World.content, List.getD_eq_getElem?_getD, List.getElem?_eq_none, h]

theorem Shape_path_of_two (w : World) (h : Shape w) (hl : w.files.length = 2) :
    w.path = some 1 := by
  obtain ⟨h1 | h1 | h1, _⟩ := h
  · have := h1.2; omega
  · have := h1.2; omega
  · exact h1.1

theorem Tail_file_eq (P : Params) (w0 w : World) (c : Cfg)
    (h : Tail0 P w0 w c ∨ Tail1 P w0 w c) : c.file = c.fiFile := by
  rcases h with h | h
  · rw [h.1, h.2.1]
  · rw [h.1, h.2.1]

/-- The invariant is kept by every step in which no system call fails. -/
theorem Inv2_step (P : Params) (w0 w : World) (c c' : Cfg) (h : Inv2 P w0 w c)
    (hs : Step P w false c c') : Inv2 P w0 w c' := by
  obtain ⟨hS, hR, hE, hC, hL⟩ := h
  cases hs with
  | stopped hstop =>
    rcases hstop with hpc | hpc | ⟨e, hpc⟩
    · unfold Local at hL; rw [hpc] at hL; exact hL.elim
    · unfold Local at hL; rw [hpc] at hL; exact hL.elim
    · exact ⟨hS, hR, hE, hC, hL⟩
  | statPathFault hpc hf =>
    exact absurd hf (by simp)
  | statPathNone hpc hf hp =>
    unfold Local at hL
    rw [hpc] at hL
    exact hL.elim
  | statPathSome id hpc hf hp =>
    unfold Local at hL
    rw [hpc] at hL
    exact hL.elim
  | openFirstFault hpc hf =>
    exact absurd hf (by simp)
  | openFirstNone hpc hf hp =>
    unfold Local at hL
    rw [hpc] at hL
    simp only [] at hL
    rw [hp] at hL
    exact absurd hL.2.2.2 (by simp)
  | openFirstSome id hpc hf hp =>
    unfold Local at hL
    rw [hpc] at hL
    simp only [] at hL
    obtain ⟨⟨hu1, hu2, hu3, hu4, hu5⟩, h0p, hfi, hwp⟩ := hL
    have hid : id = 0 := by rw [hp] at hwp; exact Option.some.inj hwp
    subst hid
    refine ⟨hS, hR, hE, hC, ?_⟩
    have hoff : startOffset w0 = (w0.info 0).size := by
      simp [startOffset, h0p, World.info]
    simp only [Local, Cfg.launch, Option.isNone_some, Bool.false_eq_true, ↓reduceIte, Fresh,
      hfi, hoff]
    exact ⟨trivial, trivial, hu2, hu3⟩
  | waitCheckCancelled s hpc hcan =>
    refine ⟨hS, hR, hE, hC, ?_⟩
    unfold Local at hL ⊢
    cases s <;> rw [hpc] at hL <;> simp only [] at hL ⊢
    · exact ⟨hL.1, hL.2.1, hL.2.2, hcan⟩
    · exact ⟨hL.1, hL.2, hcan⟩
  | waitCheckLive s hpc hcan =>
    have hcl : c.closing = false := by
      cases hc : c.closing
      · rfl
      · rw [hC hc] at hcan; exact absurd hcan (by simp)
    refine ⟨hS, hR, hE, hC, ?_⟩
    unfold Local at hL ⊢
    cases s <;> rw [hpc] at hL <;> simp only [] at hL ⊢
    · exact hL
    · exact ⟨hL.1, hcl⟩
  | waitCancelStatFirstFault hpc hf =>
    exact absurd hf (by simp)
  | waitCancelStatFirstNone hpc hf hp =>
    unfold Local at hL
    rw [hpc] at hL
    simp only [] at hL
    exact absurd hp (hS.2 hL.2.2.2)
  | waitCancelStatFirstSome id hpc hf hp =>
    unfold Local at hL
    rw [hpc] at hL
    simp only [] at hL
    obtain ⟨hu, hoff, h0p, _⟩ := hL
    have hid : id = 0 := by
      rcases Shape_ids w id hS hp with ⟨h1, _⟩ | ⟨_, h2⟩
      · exact h1
      · have := hu.2.2.2.1; omega
    subst hid
    refine ⟨hS, hR, hE, hC, ?_⟩
    show Unopened w _ ∧ _ ∧ _ ∧ _
    exact ⟨hu, hoff, h0p, hp⟩
  | waitCancelStatLoopFault hpc hf =>
    exact absurd hf (by simp)
  | waitCancelStatLoopNone hpc hf hp =>
    unfold Local at hL
    rw [hpc] at hL
    simp only [] at hL
    exact absurd hp (hS.2 hL.2.2)
  | waitCancelStatLoopSame id hpc hf hp hsame =>
    unfold Local at hL
    rw [hpc] at hL
    simp only [] at hL
    obtain ⟨ht, hd, _⟩ := hL
    have hfile : c.file = w.path := by
      rw [Tail_file_eq P w0 w c ht, sameFile_true c _ hsame, hp]; rfl
    refine ⟨hS, hR, hE, hC, ?_⟩
    show (Tail0 P w0 w _ ∨ Tail1 P w0 w _) ∧ (_ → Drained w _ ∧ _)
    exact ⟨ht, fun hc => ⟨hd hc, hfile⟩⟩
  | waitCancelStatLoopRotated id hpc hf hp hsame =>
    unfold Local at hL
    rw [hpc] at hL
    simp only [] at hL
    have ht := hL.1
    refine ⟨hS, hR, hE, hC, ?_⟩
    rcases ht with ht | ht
    · have hne : (0 : FileId) ≠ id := sameFile_false c (w.info id) 0 ht.2.1 hsame
      have hid : id = 1 ∧ w.files.length = 2 := by
        rcases Shape_ids w id hS hp with ⟨h1, _⟩ | h2
        · exact absurd h1.symm hne
        · exact h2
      obtain ⟨hid, hlen⟩ := hid
      subst hid
      show Tail0 P w0 w _ ∧ _ ∧ _
      exact ⟨ht, hlen, rfl⟩
    · have hp1 := Shape_path_of_two w hS ht.2.2.1
      have hid : id = 1 := by rw [hp] at hp1; exact Option.some.inj hp1
      subst hid
      exact absurd rfl (sameFile_false c (w.info 1) 1 ht.2.1 hsame)
  | waitStatFirstFault hpc hf =>
    exact absurd hf (by simp)
  | waitStatLoopFault hpc hf =>
    exact absurd hf (by simp)
  | waitStatNone s hpc hf hp =>
    refine ⟨hS, hR, hE, hC, ?_⟩
    unfold Local at hL ⊢
    cases s <;> rw [hpc] at hL <;> simp only [] at hL ⊢
    · exact hL
    · exact hL
  | waitStatFirstSome id hpc hf hp =>
    unfold Local at hL
    rw [hpc] at hL
    simp only [] at hL
    obtain ⟨hu, hoff, h0p⟩ := hL
    have hid : id = 0 := by
      rcases Shape_ids w id hS hp with ⟨h1, _⟩ | ⟨_, h2⟩
      · exact h1
      · have := hu.2.2.2.1; omega
    subst hid
    refine ⟨hS, hR, hE, hC, ?_⟩
    show Unopened w _ ∧ _ ∧ _ ∧ _
    exact ⟨hu, hoff, h0p, hp⟩
  | waitStatLoopSame id hpc hf hp hsame =>
    unfold Local at hL
    rw [hpc] at hL
    simp only [] at hL
    obtain ⟨ht, hcl⟩ := hL
    refine ⟨hS, hR, hE, hC, ?_⟩
    show (Tail0 P w0 w _ ∨ Tail1 P w0 w _) ∧ (_ → Drained w _ ∧ _)
    exact ⟨ht, fun hc => absurd (show c.closing = true from hc) (by simp [hcl])⟩
  | waitStatLoopRotated id hpc hf hp hsame =>
    unfold Local at hL
    rw [hpc] at hL
    simp only [] at hL
    have ht := hL.1
    refine ⟨hS, hR, hE, hC, ?_⟩
    rcases ht with ht | ht
    · have hne : (0 : FileId) ≠ id := sameFile_false c (w.info id) 0 ht.2.1 hsame
      have hid : id = 1 ∧ w.files.length = 2 := by
        rcases Shape_ids w id hS hp with ⟨h1, _⟩ | h2
        · exact absurd h1.symm hne
        · exact h2
      obtain ⟨hid, hlen⟩ := hid
      subst hid
      show Tail0 P w0 w _ ∧ _ ∧ _
      exact ⟨ht, hlen, rfl⟩
    · have hp1 := Shape_path_of_two w hS ht.2.2.1
      have hid : id = 1 := by rw [hp] at hp1; exact Option.some.inj hp1
      subst hid
      exact absurd rfl (sameFile_false c (w.info 1) 1 ht.2.1 hsame)
  | waitSleep s hpc =>
    refine ⟨hS, hR, hE, hC, ?_⟩
    unfold Local at hL ⊢
    cases s <;> rw [hpc] at hL <;> simp only [] at hL ⊢
    · exact hL
    · exact ⟨hL.1, fun hc => absurd (show c.closing = true from hc) (by simp [hL.2])⟩
  | openWaitedFault hpc hf =>
    exact absurd hf (by simp)
  | openWaitedNone hpc hf hp =>
    unfold Local at hL
    rw [hpc] at hL
    simp only [] at hL
    rw [hp] at hL
    exact absurd hL.2.2.2 (by simp)
  | openWaitedSome id hpc hf hp =>
    unfold Local at hL
    rw [hpc] at hL
    simp only [] at hL
    obtain ⟨⟨hu1, hu2, hu3, hu4, hu5⟩, hoff, h0p, hwp⟩ := hL
    have hid : id = 0 := by rw [hp] at hwp; exact Option.some.inj hwp
    subst hid
    refine ⟨hS, hR, hE, hC, ?_⟩
    show Fresh w0 _
    exact ⟨rfl, by simp [hoff, startOffset, h0p], hu2, hu3⟩
  | statHandleFault hpc hf =>
    exact absurd hf (by simp)
  | statHandleSeek hpc hf hcond =>
    unfold Local at hL
    rw [hpc] at hL
    simp only [] at hL
    obtain ⟨h1, h2, h3, h4⟩ := hL
    refine ⟨hS, hR, hE, hC, ?_⟩
    show Fresh w0 _ ∧ _ ∧ _ ∧ _
    exact ⟨⟨h1, h2, h3, h4⟩, by simp [Cfg.fiFile, h1, World.info], hcond.1, hcond.2⟩
  | statHandleDrain hpc hf hcond =>
    unfold Local at hL
    rw [hpc] at hL
    simp only [] at hL
    obtain ⟨h1, h2, h3, h4⟩ := hL
    have hsp : startPos w0 P.fromStart = 0 := by
      rw [startPos_eq]
      by_cases hfs : P.fromStart = true
      · simp [hfs]
      · have hfs' : P.fromStart = false := by simpa using hfs
        simp only [hfs', Bool.false_eq_true, ↓reduceIte]
        by_contra hne
        exact hcond ⟨by rw [h2]; exact_mod_cast hne, hfs'⟩
    obtain ⟨hr1, hr2, hr3⟩ := hR
    refine ⟨hS, ⟨hr1, hr2, hr3⟩, hE, hC, ?_⟩
    show Tail0 P w0 w _ ∨ Tail1 P w0 w _
    left
    rw [hsp] at hr2
    refine ⟨by simp [Cfg.file, h1], by simp [Cfg.fiFile, h1, World.info], by simp [hsp],
      by simp [Cfg.pos, h1], ?_, ?_, ?_⟩
    · simpa [Cfg.pos, h1] using closed_nil
    · simpa [Cfg.pos, h1] using hr2
    · simp [Cfg.pos, h1, h3, linesOf_nil]
  | seekFault hpc hf =>
    exact absurd hf (by simp)
  | seekDone hpc hf =>
    unfold Local at hL
    rw [hpc] at hL
    simp only [] at hL
    obtain ⟨⟨h1, h2, h3, h4⟩, h5, h6, h7⟩ := hL
    have hsp : startPos w0 P.fromStart = startOffset w0 := by
      rw [startPos_eq]; simp [h7]
    obtain ⟨hr1, hr2, hr3⟩ := hR
    refine ⟨hS, ⟨hr1, hr2, hr3⟩, hE, hC, ?_⟩
    show Tail0 P w0 w _ ∨ Tail1 P w0 w _
    left
    rw [hsp] at hr1 hr2
    have hpos : ∀ c' : Cfg, c'.f = some ⟨0, startOffset w0⟩ → c'.pos = startOffset w0 := by
      intro c' hc'; simp [Cfg.pos, hc']
    have hf' : Option.map (fun (h : Handle) => ({ h with pos := c.offset.toNat } : Handle)) c.f
        = some ⟨0, startOffset w0⟩ := by
      simp [h1, h2]
    refine ⟨by simp [Cfg.file, hf'], h5, by rw [hsp, hpos _ hf'], by rw [hpos _ hf']; exact hr1,
      ?_, ?_, ?_⟩
    · rw [hsp, hpos _ hf', List.drop_eq_nil_of_le (by simp)]; exact closed_nil
    · rw [hpos _ hf']; exact hr2
    · rw [hsp, hpos _ hf', List.drop_eq_nil_of_le (by simp)]; exact h3
  | drain hpc =>
    unfold Local at hL
    rw [hpc] at hL
    simp only [] at hL
    refine ⟨hS, hR, by simpa [Cfg.note] using hE, by simpa [Cfg.note] using hC, ?_⟩
    show (Tail0 P w0 w _ ∨ Tail1 P w0 w _) ∧ (_ → Drained w _)
    rcases hL with ht | ht
    · obtain ⟨m1, m2, m3⟩ := Tail0_mirror P w0 w c.note (Tail0_congr P w0 w c _ rfl rfl rfl ht)
      exact ⟨.inl (Tail0_congr P w0 w _ _ rfl rfl rfl m1), fun _ => .inl ⟨m2, m3⟩⟩
    · obtain ⟨m1, m2, m3⟩ := Tail1_mirror P w0 w c.note (Tail1_congr P w0 w c _ rfl rfl rfl ht)
      exact ⟨.inr (Tail1_congr P w0 w _ _ rfl rfl rfl m1), fun _ => .inr ⟨m2, m3⟩⟩
  | drainOld hpc =>
    unfold Local at hL
    rw [hpc] at hL
    simp only [] at hL
    obtain ⟨ht, hlen, hnew⟩ := hL
    refine ⟨hS, hR, by simpa [Cfg.note] using hE, by simpa [Cfg.note] using hC, ?_⟩
    show Tail0 P w0 w _ ∧ _ ∧ _ ∧ _
    obtain ⟨m1, m2, m3⟩ := Tail0_mirror P w0 w c.note (Tail0_congr P w0 w c _ rfl rfl rfl ht)
    exact ⟨Tail0_congr P w0 w _ _ rfl rfl rfl m1, hlen, by simpa [Cfg.newFIFile] using hnew, m3⟩
  | closeOld hpc =>
    unfold Local at hL
    rw [hpc] at hL
    simp only [] at hL
    refine ⟨hS, hR, hE, hC, ?_⟩
    show Tail0 P w0 w _ ∧ _ ∧ _ ∧ _
    exact hL
  | reopenFault hpc hf =>
    exact absurd hf (by simp)
  | reopenNone hpc hf hp =>
    unfold Local at hL
    rw [hpc] at hL
    simp only [] at hL
    rw [Shape_path_of_two w hS hL.2.1] at hp
    exact absurd hp (by simp)
  | reopenSome id hpc hf hp =>
    unfold Local at hL
    rw [hpc] at hL
    simp only [] at hL
    obtain ⟨ht, hlen, hnew, hpos⟩ := hL
    have hid : id = 1 := by
      rw [Shape_path_of_two w hS hlen] at hp; exact (Option.some.inj hp).symm
    subst hid
    obtain ⟨hr1, hr2, hr3⟩ := hR
    refine ⟨hS, ⟨hr1, hr2, hr3⟩, hE, hC, ?_⟩
    show Tail1 P w0 w _
    obtain ⟨t1, t2, t3, t4, t5, t6, t7⟩ := ht
    refine ⟨rfl, by simpa [Cfg.fiFile, Cfg.newFIFile] using hnew, hlen, by simp [Cfg.pos],
      ?_, ?_, ?_⟩
    · simpa [Cfg.pos] using closed_nil
    · simpa [Cfg.pos] using hr3
    · rw [hpos, List.take_length] at t7
      simp [Cfg.pos, Cfg.note, t7, linesOf_nil]
  | drainNew hpc =>
    unfold Local at hL
    rw [hpc] at hL
    simp only [] at hL
    refine ⟨hS, hR, by simpa [Cfg.note] using hE, by simpa [Cfg.note] using hC, ?_⟩
    show (Tail0 P w0 w _ ∨ Tail1 P w0 w _) ∧ (_ → Drained w _ ∧ _)
    obtain ⟨m1, m2, m3⟩ := Tail1_mirror P w0 w c.note (Tail1_congr P w0 w c _ rfl rfl rfl hL)
    have hp1 := Shape_path_of_two w hS hL.2.2.1
    exact ⟨.inr (Tail1_congr P w0 w _ _ rfl rfl rfl m1),
      fun _ => ⟨.inr ⟨m2, m3⟩, by rw [hp1]; exact m2⟩⟩
  | checkCancelShutdown hpc hcan hcl =>
    unfold Local at hL
    rw [hpc] at hL
    simp only [] at hL
    obtain ⟨ht, hd⟩ := hL
    obtain ⟨hd, hfp⟩ := hd hcl
    refine ⟨hS, hR, hE, hC, ?_⟩
    show w.cancelled = true ∧ c.dispatched = _
    refine ⟨hcan, ?_⟩
    rcases ht with ht | ht
    · obtain ⟨t1, t2, t3, t4, t5, t6, t7⟩ := ht
      have hpos : c.pos = (w.content 0).length := by
        rcases hd with hd | hd
        · exact hd.2
        · rw [t1] at hd; exact absurd hd.1 (by simp)
      have hlen : w.files.length = 1 := by
        rw [t1] at hfp
        rcases Shape_ids w 0 hS hfp.symm with h1 | h1
        · exact h1.2
        · exact absurd h1.1 (by simp)
      rw [hpos, List.take_length] at t7
      rw [t7, content_one_of_length w hlen, linesOf_nil, List.append_nil]
    · obtain ⟨t1, t2, t3, t4, t5, t6, t7⟩ := ht
      have hpos : c.pos = (w.content 1).length := by
        rcases hd with hd | hd
        · rw [t1] at hd; exact absurd hd.1 (by simp)
        · exact hd.2
      rw [hpos, List.take_length] at t7
      exact t7
  | checkCancelClosing hpc hcan hcl =>
    unfold Local at hL
    rw [hpc] at hL
    simp only [] at hL
    refine ⟨hS, hR, hE, fun _ => hcan, ?_⟩
    show Tail0 P w0 w _ ∨ Tail1 P w0 w _
    exact hL.1
  | checkCancelLive hpc hcan =>
    have hcl : c.closing = false := by
      cases hc : c.closing
      · rfl
      · rw [hC hc] at hcan; exact absurd hcan (by simp)
    unfold Local at hL
    rw [hpc] at hL
    simp only [] at hL
    refine ⟨hS, hR, hE, hC, ?_⟩
    show (Tail0 P w0 w _ ∨ Tail1 P w0 w _) ∧ _
    exact ⟨hL.1, hcl⟩
  | sleep hpc =>
    unfold Local at hL
    rw [hpc] at hL
    simp only [] at hL
    refine ⟨hS, hR, hE, hC, ?_⟩
    show Tail0 P w0 w _ ∨ Tail1 P w0 w _
    exact hL.1

/-! ## Runs with at most one rotation: every line is dispatched once -/

theorem Inv2_run (P : Params) (w0 : World) (ticks : List Tick) (w : World) (c : Cfg)
    (hv : validRun P w c ticks = true) (h : Inv2 P w0 w c) :
    Inv2 P w0 (run P w c ticks).1 (run P w c ticks).2 := by
  induction ticks generalizing w c with
  | nil => exact h
  | cons t ts ih =>
    simp only [validRun, Bool.and_eq_true, Bool.not_eq_true'] at hv
    obtain ⟨⟨hf, ha⟩, hr⟩ := hv
    have h1 := Inv2_acts P w0 c t.acts w ha h
    have h2 := Inv2_step P w0 _ c _ h1 (hf ▸ step_sound P (w.applyAll t.acts) t.fault c)
    rw [hf] at hr
    simp only [run, hf]
    exact ih _ _ hr h2

theorem run_world (P : Params) (ticks : List Tick) (w : World) (c : Cfg) :
    (run P w c ticks).1 = worldAfter w ticks := by
  induction ticks generalizing w c with
  | nil => rfl
  | cons t ts ih => simp only [run, worldAfter, List.foldl_cons]; exact ih _ _

theorem measure_le (c : Cfg) : measure c ≤ 24 := by
  unfold measure
  cases hpc : c.pc <;> (try cases ‹Site›) <;> simp [rank] <;> split_ifs <;> omega

/-- Once the context is cancelled, every step brings the goroutine closer to its return. -/
theorem measure_step (P : Params) (w0 w : World) (c c' : Cfg) (h : Inv2 P w0 w c)
    (hcan : w.cancelled = true) (hs : Step P w false c c') (hnd : c.pc ≠ .done .shutdown) :
    measure c' < measure c := by
  obtain ⟨hS, hR, hE, hC, hL⟩ := h
  have hpn : w.path ≠ none := hS.2 hcan
  unfold Local at hL
  cases hs <;> (try cases ‹Site›) <;>
    simp_all [measure, rank, Cfg.launch, Cfg.note, Cfg.finish, Cfg.send] <;>
    (try omega)
  rename_i hstop
  rcases hstop with hpc | hpc | ⟨e, hpc⟩
  · rw [hpc] at hL; exact hL
  · rw [hpc] at hL; exact hL
  · cases e
    · exact hnd hpc
    · rw [hpc] at hL; exact hL
    · rw [hpc] at hL; exact hL

theorem run_done (P : Params) (ticks : List Tick) (w : World) (c : Cfg) (e : Exit)
    (h : c.pc = .done e) : (run P w c ticks).2 = c := by
  induction ticks generalizing w with
  | nil => rfl
  | cons t ts ih => simp only [run, step_done P _ t.fault c e h]; exact ih _

theorem worldAfter_quiet (w : World) (n : Nat) :
    worldAfter w (List.replicate n Tick.quiet) = w := by
  induction n with
  | zero => rfl
  | succ n ih => simpa [worldAfter, List.replicate_succ, Tick.quiet, World.applyAll] using ih

theorem worldAfter_append (w : World) (t1 t2 : List Tick) :
    worldAfter w (t1 ++ t2) = worldAfter (worldAfter w t1) t2 := by
  simp [worldAfter, List.foldl_append]

/-- Once the context is cancelled and the environment is at rest, the goroutine returns
within `measure` steps. -/
theorem quiet_run (P : Params) (w0 : World) (n : Nat) (w : World) (c : Cfg)
    (h : Inv2 P w0 w c) (hcan : w.cancelled = true) (hm : measure c ≤ n) :
    (run P w c (List.replicate n Tick.quiet)).1 = w
    ∧ (run P w c (List.replicate n Tick.quiet)).2.pc = .done .shutdown
    ∧ Inv2 P w0 w (run P w c (List.replicate n Tick.quiet)).2 := by
  induction n generalizing c with
  | zero =>
    refine ⟨rfl, ?_, h⟩
    show c.pc = .done .shutdown
    obtain ⟨_, _, _, _, hL⟩ := h
    unfold Local at hL
    unfold measure at hm
    cases hpc : c.pc <;> (try cases ‹Site›) <;> (try cases ‹Exit›) <;> rw [hpc] at hL hm <;>
      simp only [rank] at hm <;> first | rfl | exact hL.elim | omega
  | succ n ih =>
    by_cases hd : c.pc = .done .shutdown
    · rw [run_done P _ w c .shutdown hd]
      exact ⟨by rw [run_world, worldAfter_quiet], hd, h⟩
    · have hs := step_sound P w false c
      have h' := Inv2_step P w0 w c _ h hs
      have hlt := measure_step P w0 w c _ h hcan hs hd
      exact ih (step P w false c) h' (by omega)

theorem run_quiet (P : Params) (w : World) (c : Cfg) (ts : List Tick) :
    run P w c (Tick.quiet :: ts) = run P w (step P w false c) ts := rfl

theorem Inv2_start (P : Params) (init : Option (List Nat))
    (hinit : ∀ data, init = some data → P.fromStart = true → Closed data) :
    Inv2 P (startWorld init) (startWorld init) (step P (startWorld init) false Cfg.init) := by
  cases init with
  | none =>
    rw [step_statPath P _ false Cfg.init rfl]
    refine ⟨⟨.inl ⟨rfl, by simp [startWorld, World.absent]⟩, fun h => ?_⟩, ?_, rfl,
      fun h => ?_, ?_⟩
    · simp [startWorld, World.absent] at h
    · simp [Region, startWorld, World.absent, startPos, World.content, closed_nil]
    · simp [osStat, startWorld, World.absent, Cfg.launch, Cfg.init] at h
    · simp [osStat, startWorld, World.absent, Cfg.launch, Cfg.init, Local, Unopened]
  | some data =>
    rw [step_statPath P _ false Cfg.init rfl]
    refine ⟨⟨.inr (.inl ⟨rfl, rfl⟩), fun h => ?_⟩, ?_, rfl, fun h => ?_, ?_⟩
    · simp [startWorld] at h
    · refine ⟨?_, ?_, ?_⟩
      · rw [startPos_eq]
        split_ifs
        · omega
        · simp [startOffset, startWorld]
      · rw [startPos_eq]
        split_ifs with hfs
        · simpa [startWorld, World.content] using hinit data rfl hfs
        · simpa [startOffset, startWorld, World.content] using closed_nil
      · simpa [startWorld, World.content] using closed_nil
    · simp [osStat, startWorld, Cfg.init] at h
    · simp [osStat, startWorld, Cfg.init, Local, Unopened]

/-- C2 (amended).  At the call of `mirrorLog` the path names nothing, or a file of any
content; when `fromStart` is true that content is made of complete lines shorter than
`MaxScanTokenSize` (when it is false the content is skipped, whatever it is).  No system
call fails.  The environment, interleaved in any way with the steps of the session, only
does this (`envOK`):
* before the cancellation, it appends complete lines (shorter than `MaxScanTokenSize`) to
  the file the path names;
* before the cancellation, it renames the path away at most once, and only while the
  session holds the first file open, and creates a new file when the path names nothing;
* it cancels the context while the path names a file, and does nothing after the
  cancellation: no write, no rename and no creation follows it.
Then, 24 steps after the last action of the environment at the latest, the goroutine has
returned through "Shutting down mirror", nothing was sent on the error channel, and the
consumer has received exactly: the lines of the first file from the start position on, in
file order, then the lines of the second file, in file order, each line once (less its
newline and one trailing carriage return). -/
theorem C2_single_rotation (P : Params) (init : Option (List Nat))
    (ticks : List Tick)
    (hinit : ∀ data, init = some data → P.fromStart = true → Closed data)
    (hvalid : validRun P (startWorld init) Cfg.init (Tick.quiet :: ticks) = true)
    (hcancel : (worldAfter (startWorld init) ticks).cancelled = true) :
    (session P (startWorld init)
        (Tick.quiet :: ticks ++ List.replicate 24 Tick.quiet)).pc = .done .shutdown
    ∧ (session P (startWorld init)
        (Tick.quiet :: ticks ++ List.replicate 24 Tick.quiet)).errorChannel = []
    ∧ (session P (startWorld init)
        (Tick.quiet :: ticks ++ List.replicate 24 Tick.quiet)).dispatched
        = linesOf P (((worldAfter (startWorld init) ticks).content 0).drop
            (startPos (startWorld init) P.fromStart))
          ++ linesOf P ((worldAfter (startWorld init) ticks).content 1) := by
  have h1 := Inv2_start P init hinit
  have hv : validRun P (startWorld init) (step P (startWorld init) false Cfg.init) ticks
      = true := by
    simpa [validRun, Tick.quiet, validActs, World.applyAll] using hvalid
  have h2 := Inv2_run P (startWorld init) ticks _ _ hv h1
  have hw : (run P (startWorld init) (step P (startWorld init) false Cfg.init) ticks).1
      = worldAfter (startWorld init) ticks := run_world P ticks _ _
  rw [hw] at h2
  obtain ⟨q1, q2, q3⟩ := quiet_run P (startWorld init) 24 _ _ h2 hcancel (measure_le _)
  have hs : session P (startWorld init) (Tick.quiet :: ticks ++ List.replicate 24 Tick.quiet)
      = (run P (worldAfter (startWorld init) ticks)
          (run P (startWorld init) (step P (startWorld init) false Cfg.init) ticks).2
          (List.replicate 24 Tick.quiet)).2 := by
    show (run P (startWorld init) Cfg.init
      (Tick.quiet :: (ticks ++ List.replicate 24 Tick.quiet))).2 = _
    rw [run_quiet, run_append, hw]
  rw [hs]
  obtain ⟨_, _, hE, _, hL⟩ := q3
  unfold Local at hL
  rw [q2] at hL
  exact ⟨q2, hE, hL.2⟩

/-- C2 (as stated, refuted): three runs in which lines are written to the file, the path
is rotated once and lines are written to the new file, and the old-file line is never
dispatched.
* The path does not exist when `mirrorLog` is called; between two polls of `waitForFile`
  the file is created, the line `"a"` is written to it, the path is rotated and the line
  `"b"` is written to the new file; later the context is cancelled.  The session runs
  until "Shutting down mirror" and has only dispatched `"b"`.
* The session tails the file and the context is cancelled; the line `"b"` is written and
  the path rotated after the last drain of the last pass.  The goroutine returns and has
  dispatched nothing.
* The session has opened the file; the line `"b"` is written and the path rotated; then
  `f.Stat()` fails.  The goroutine sends the error and returns, and has dispatched
  nothing. -/
theorem C2_old_lines_lost :
    ((worldAfter World.absent rotateBeforeOpen).files = [[97, 10], [98, 10]]
      ∧ (session tailParams World.absent rotateBeforeOpen).pc = .done .shutdown
      ∧ (session tailParams World.absent rotateBeforeOpen).dispatched = [([98], false)]
      ∧ (session tailParams World.absent rotateBeforeOpen).dispatched.count ([97], false) ≠ 1)
    ∧ ((worldAfter World.oneLine rotateAfterLastDrain).files = [[97, 10, 98, 10], [99, 10]]
      ∧ (session tailParams World.oneLine rotateAfterLastDrain).pc = .done .shutdown
      ∧ (session tailParams World.oneLine rotateAfterLastDrain).dispatched.count ([98], false)
          ≠ 1)
    ∧ ((worldAfter World.oneLine rotateThenStatFails).files = [[97, 10, 98, 10], [99, 10]]
      ∧ (session tailParams World.oneLine rotateThenStatFails).pc = .done .failed
      ∧ (session tailParams World.oneLine rotateThenStatFails).dispatched.count ([98], false)
          ≠ 1) := by
  decide

/-- C2 (amended) at two concrete runs, in both of which the line `"b"` is appended, the
path is rotated, the line `"c"` is written to the new file, and the context is cancelled.
* With `fromStart` true and a file that holds the line `"a"` at the call, the consumer
  receives `"a"`, `"b"`, then `"c"`.
* With `fromStart` false and a file that holds the unterminated byte `a` at the call, the
  consumer receives `"b"`, then `"c"`. -/
theorem C2_single_rotation_witness :
    (validRun headParams (startWorld (some [97, 10])) Cfg.init (Tick.quiet :: rotateOnce)
        = true
      ∧ (worldAfter (startWorld (some [97, 10])) rotateOnce).files
          = [[97, 10, 98, 10], [99, 10]]
      ∧ (worldAfter (startWorld (some [97, 10])) rotateOnce).cancelled = true
      ∧ ((session headParams (startWorld (some [97, 10]))
            (Tick.quiet :: rotateOnce ++ List.replicate 24 Tick.quiet)).pc = .done .shutdown
        ∧ (session headParams (startWorld (some [97, 10]))
            (Tick.quiet :: rotateOnce ++ List.replicate 24 Tick.quiet)).errorChannel = []
        ∧ (session headParams (startWorld (some [97, 10]))
            (Tick.quiet :: rotateOnce ++ List.replicate 24 Tick.quiet)).dispatched
            = linesOf headParams
                (((worldAfter (startWorld (some [97, 10])) rotateOnce).content 0).drop
                  (startPos (startWorld (some [97, 10])) headParams.fromStart))
              ++ linesOf headParams
                  ((worldAfter (startWorld (some [97, 10])) rotateOnce).content 1))
      ∧ (session headParams (startWorld (some [97, 10]))
            (Tick.quiet :: rotateOnce ++ List.replicate 24 Tick.quiet)).dispatched
          = [([97], false), ([98], false), ([99], false)])
    ∧ (validRun tailParams (startWorld (some [97])) Cfg.init (Tick.quiet :: rotateOnce)
        = true
      ∧ (worldAfter (startWorld (some [97])) rotateOnce).files = [[97, 98, 10], [99, 10]]
      ∧ (worldAfter (startWorld (some [97])) rotateOnce).cancelled = true
      ∧ ((session tailParams (startWorld (some [97]))
            (Tick.quiet :: rotateOnce ++ List.replicate 24 Tick.quiet)).pc = .done .shutdown
        ∧ (session tailParams (startWorld (some [97]))
            (Tick.quiet :: rotateOnce ++ List.replicate 24 Tick.quiet)).errorChannel = []
        ∧ (session tailParams (startWorld (some [97]))
            (Tick.quiet :: rotateOnce ++ List.replicate 24 Tick.quiet)).dispatched
            = linesOf tailParams
                (((worldAfter (startWorld (some [97])) rotateOnce).content 0).drop
                  (startPos (startWorld (some [97])) tailParams.fromStart))
              ++ linesOf tailParams
                  ((worldAfter (startWorld (some [97])) rotateOnce).content 1))
      ∧ (session tailParams (startWorld (some [97]))
            (Tick.quiet :: rotateOnce ++ List.replicate 24 Tick.quiet)).dispatched
          = [([98], false), ([99], false)]) :=
  ⟨⟨by decide, by decide, by decide,
      C2_single_rotation headParams (some [97, 10]) rotateOnce
        (fun data h _ => by cases h; exact ⟨[[97]], by decide, rfl⟩) (by decide) (by decide),
      by decide⟩,
    ⟨by decide, by decide, by decide,
      C2_single_rotation tailParams (some [97]) rotateOnce
        (fun data _ h => absurd h (by decide)) (by decide) (by decide),
      by decide⟩⟩

end Mirror
